import Mathlib

/-!
Verification of `src/lambda/flatten_orders_to_parquet.py`.

The file shallowly embeds the pandas pipeline of the Lambda handler:
cell values are modelled by `JVal` (JSON values plus pandas timestamps),
dataframes by `DF` (a column-name list plus positionally aligned rows),
and each pandas operation used by the source is modelled by a Lean
function on `DF`.  Timestamps are nanoseconds since the Unix epoch
(`datetime64[ns, UTC]`); numeric cells are exact rationals.
-/

namespace RetailETL

mutual

/-- Cell values of the pipeline: the JSON values produced by `json.loads`
(`str`, `int`, `float`, `bool`, `null`, objects, arrays) together with
`ts`, the UTC pandas timestamp (nanoseconds since the Unix epoch) that
appears in the `order_timestamp` column after parsing.  JSON objects and
arrays are represented by the auxiliary lists `JFields` and `JList`. -/
inductive JVal where
  | str (s : String)
  | int (n : ℤ)
  | float (q : ℚ)
  | bool (b : Bool)
  | null
  | obj (fields : JFields)
  | arr (elems : JList)
  | ts (ns : ℤ)
  deriving DecidableEq

/-- Field list of a JSON object (a Python dict: keys are distinct). -/
inductive JFields where
  | nil
  | fcons (key : String) (val : JVal) (rest : JFields)
  deriving DecidableEq

/-- Element list of a JSON array. -/
inductive JList where
  | nil
  | lcons (head : JVal) (rest : JList)
  deriving DecidableEq

end

/-- A dataframe cell: `none` is a missing value (NaN / NaT / <NA>). -/
abbrev Cell := Option JVal

/-- Build a `JFields` from a Lean list (for concrete examples). -/
def JFields.ofList : List (String × JVal) → JFields
  | [] => .nil
  | (k, v) :: rest => .fcons k v (JFields.ofList rest)

/-- Build a `JList` from a Lean list (for concrete examples). -/
def JList.ofList : List JVal → JList
  | [] => .nil
  | v :: rest => .lcons v (JList.ofList rest)

/-- View a `JList` as a Lean list. -/
def JList.toList : JList → List JVal
  | .nil => []
  | .lcons v rest => v :: rest.toList

/-- The keys of a JSON object, in order. -/
def JFields.keys : JFields → List String
  | .nil => []
  | .fcons k _ rest => k :: rest.keys

/-- Python dict lookup (`d[k]` / `d.get(k)`). -/
def JFields.lookup : JFields → String → Option JVal
  | .nil, _ => none
  | .fcons k v rest, c => if k = c then some v else rest.lookup c

/-- A JSON object literal (helper for concrete examples). -/
def jobj (l : List (String × JVal)) : JVal := .obj (JFields.ofList l)

/-- A JSON array literal (helper for concrete examples). -/
def jarr (l : List JVal) : JVal := .arr (JList.ofList l)

/-- Remove duplicates keeping the first occurrence, as
`DataFrame.drop_duplicates` and the column union of
`pd.DataFrame(list_of_dicts)` do. -/
def dedupFirst {α : Type} [DecidableEq α] : List α → List α
  | [] => []
  | x :: xs => x :: (dedupFirst xs).filter (fun y => y ≠ x)

/-- Positional lookup of a column value in a row: the cell under the first
occurrence of column `c`, `none` if the column is absent. -/
def getCellAux (cols : List String) (row : List Cell) (c : String) : Cell :=
  match cols, row with
  | c2 :: cs, x :: xs => if c2 = c then x else getCellAux cs xs c
  | _, _ => none

/-- Replace the cells under every occurrence of column `name` by `x`
(column assignment `df[name] = ...` when the column already exists). -/
def setRow (cols : List String) (row : List Cell) (name : String) (x : Cell) : List Cell :=
  match cols, row with
  | c :: cs, a :: as_ => (if c = name then x else a) :: setRow cs as_ name x
  | _, row => row

/-! ## Calendar arithmetic for `datetime64[ns, UTC]` values -/

/-- Nanoseconds per day. -/
def nsPerDay : ℤ := 86400000000000

/-- Smallest representable `pd.Timestamp` value in nanoseconds
(`pd.Timestamp.min.value`; the value `-2^63` is reserved for `NaT`). -/
def tsMinNs : ℤ := -9223372036854775807

/-- Largest representable `pd.Timestamp` value in nanoseconds. -/
def tsMaxNs : ℤ := 9223372036854775807

/-- Whether a nanosecond count is representable as a `datetime64[ns]`;
`pd.to_datetime(..., errors="coerce")` turns anything else into `NaT`. -/
def tsInBounds (ns : ℤ) : Bool := decide (tsMinNs ≤ ns ∧ ns ≤ tsMaxNs)

/-- Days since 1970-01-01 of a proleptic-Gregorian civil date
(Howard Hinnant's `days_from_civil`). -/
def daysFromCivil (y m d : ℤ) : ℤ :=
  let y2 := y - (if m ≤ 2 then 1 else 0)
  let era := Int.fdiv y2 400
  let yoe := y2 - era * 400
  let mp := if 2 < m then m - 3 else m + 9
  let doy := Int.ediv (153 * mp + 2) 5 + d - 1
  let doe := yoe * 365 + Int.ediv yoe 4 - Int.ediv yoe 100 + doy
  era * 146097 + doe - 719468

/-- Civil date `(year, month, day)` of a day count since 1970-01-01
(Howard Hinnant's `civil_from_days`). -/
def civilFromDays (z : ℤ) : ℤ × ℤ × ℤ :=
  let z2 := z + 719468
  let era := Int.fdiv z2 146097
  let doe := z2 - era * 146097
  let yoe := Int.ediv (doe - Int.ediv doe 1460 + Int.ediv doe 36524 - Int.ediv doe 146096) 365
  let y := yoe + era * 400
  let doy := doe - (365 * yoe + Int.ediv yoe 4 - Int.ediv yoe 100)
  let mp := Int.ediv (5 * doy + 2) 153
  let d := doy - Int.ediv (153 * mp + 2) 5 + 1
  let m := if mp < 10 then mp + 3 else mp - 9
  (if m ≤ 2 then y + 1 else y, m, d)

/-- Day count of a timestamp (floor, as `.dt.date` does for any instant). -/
def dayOfNs (ns : ℤ) : ℤ := Int.fdiv ns nsPerDay

/-- Calendar year of a UTC timestamp (`.dt.year`). -/
def yearOfNs (ns : ℤ) : ℤ := (civilFromDays (dayOfNs ns)).1

/-- Calendar month of a UTC timestamp (`.dt.month`). -/
def monthOfNs (ns : ℤ) : ℤ := (civilFromDays (dayOfNs ns)).2.1

/-- Day of month of a UTC timestamp (`.dt.day`). -/
def domOfNs (ns : ℤ) : ℤ := (civilFromDays (dayOfNs ns)).2.2

/-- Zero-padded two-digit decimal rendering (for months and days). -/
def pad2 (n : ℤ) : String := if n < 10 then "0" ++ toString n else toString n

/-- Zero-padded four-digit decimal rendering (for years). -/
def pad4 (n : ℤ) : String :=
  if n < 10 then "000" ++ toString n
  else if n < 100 then "00" ++ toString n
  else if n < 1000 then "0" ++ toString n
  else toString n

/-- ISO `YYYY-MM-DD` rendering of a timestamp's calendar date, as
`.dt.date.astype(str)` produces. -/
def dateStrOfNs (ns : ℤ) : String :=
  pad4 (yearOfNs ns) ++ "-" ++ pad2 (monthOfNs ns) ++ "-" ++ pad2 (domOfNs ns)

/-! ## String classification and parsing -/

/-- Whether the string is non-empty and all-digits
(`Series.str.fullmatch(r"\d+")` on ASCII data). -/
def isAllDigits (s : String) : Bool := !s.isEmpty && s.toList.all Char.isDigit

/-- Numeric value of an all-digits string (`pd.to_numeric` on such a string). -/
def digitsToNat (s : String) : ℕ :=
  s.toList.foldl (fun acc c => acc * 10 + (c.toNat - 48)) 0

/-- Python `str()` of a cell value, to the precision observed by the
pipeline: integers render as their digits, while floats, booleans and
containers render to strings that are neither all-digits nor ISO dates,
exactly as their Python `str()` forms are. -/
def pyStr : JVal → String
  | .str s => s
  | .int n => toString n
  | .float q => if q.den = 1 then toString q.num ++ ".0" else toString q
  | .bool b => if b then "True" else "False"
  | .null => "None"
  | .obj _ => "<dict>"
  | .arr _ => "<list>"
  | .ts _ => "<timestamp>"

/-- `Series.astype("string")`: missing values and `None` become missing
(`<NA>`), everything else becomes its `str()` rendering. -/
def pdAstypeString : Cell → Option String
  | none => none
  | some .null => none
  | some v => some (pyStr v)

/-- One decimal digit. -/
def charDigit (c : Char) : Option ℕ :=
  if c.isDigit then some (c.toNat - 48) else none

/-- Exactly two decimal digits. -/
def parse2 : List Char → Option (ℕ × List Char)
  | a :: b :: rest => do
    let x ← charDigit a
    let y ← charDigit b
    pure (10 * x + y, rest)
  | _ => none

/-- Exactly four decimal digits. -/
def parse4 : List Char → Option (ℕ × List Char)
  | a :: b :: c :: d :: rest => do
    let x ← charDigit a
    let y ← charDigit b
    let z ← charDigit c
    let w ← charDigit d
    pure (1000 * x + 100 * y + 10 * z + w, rest)
  | _ => none

/-- Gregorian leap year. -/
def isLeap (y : ℤ) : Bool :=
  decide ((Int.emod y 4 = 0 ∧ Int.emod y 100 ≠ 0) ∨ Int.emod y 400 = 0)

/-- Number of days in a month. -/
def daysInMonth (y m : ℤ) : ℤ :=
  if m = 2 then (if isLeap y then 29 else 28)
  else if m = 4 ∨ m = 6 ∨ m = 9 ∨ m = 11 then 30
  else 31

/-- Nanosecond timestamp of a civil date plus time of day, `NaT` (`none`)
when it falls outside the `datetime64[ns]` range. -/
def mkTs (y m d h mi s : ℤ) : Option ℤ :=
  let ns := (daysFromCivil y m d * 86400 + h * 3600 + mi * 60 + s) * 1000000000
  if tsInBounds ns then some ns else none

/-- General string-date parsing, `pd.to_datetime(s, errors="coerce", utc=True)`,
modelled on the ISO-8601 profile this data uses: `YYYY-MM-DD`, optionally
followed by `THH:MM:SS` and an optional `Z` suffix; naive stamps are
localized to UTC, invalid dates and anything else give `NaT` (`none`). -/
def parseDateUtc (s : String) : Option ℤ := do
  let (y, cs) ← parse4 s.toList
  let cs ← match cs with | '-' :: r => some r | _ => none
  let (m, cs) ← parse2 cs
  let cs ← match cs with | '-' :: r => some r | _ => none
  let (d, cs) ← parse2 cs
  if (1 : ℤ) ≤ m ∧ m ≤ 12 ∧ 1 ≤ d ∧ (d : ℤ) ≤ daysInMonth y m then
    match cs with
    | [] => mkTs y m d 0 0 0
    | 'T' :: cs => do
      let (h, cs) ← parse2 cs
      let cs ← match cs with | ':' :: r => some r | _ => none
      let (mi, cs) ← parse2 cs
      let cs ← match cs with | ':' :: r => some r | _ => none
      let (sec, cs) ← parse2 cs
      if h < 24 ∧ mi < 60 ∧ sec < 60 then
        match cs with
        | [] => mkTs y m d h mi sec
        | ['Z'] => mkTs y m d h mi sec
        | _ => none
      else none
    | _ => none
  else none

/-- First-of-two-series merge, `Series.fillna`. -/
def fillna {α : Type} (x y : Option α) : Option α :=
  match x with
  | some v => some v
  | none => y

/-- An epoch interpretation result, `NaT` outside the representable range. -/
def epochNs (ns : ℤ) : Option ℤ :=
  if tsInBounds ns then some ns else none

/-- Line 59: the `is_num` mask — whether the string rendering is all-digits. -/
def is_num_cell (v : Cell) : Bool :=
  match pdAstypeString v with
  | some s => isAllDigits s
  | none => false

/-- Line 62: `num`, the numeric value of a digit-only candidate. -/
def num_cell (v : Cell) : Option ℕ :=
  if is_num_cell v then (pdAstypeString v).map digitsToNat else none

/-- Line 65: `dt_ms`, the millisecond interpretation of epochs below `1e15`. -/
def dt_ms_cell (v : Cell) : Option ℤ :=
  (num_cell v).bind fun n => if (n : ℤ) < 10 ^ 15 then epochNs ((n : ℤ) * 1000000) else none

/-- Line 66: `dt_ns`, the nanosecond interpretation of epochs at or above `1e15`. -/
def dt_ns_cell (v : Cell) : Option ℤ :=
  (num_cell v).bind fun n => if (n : ℤ) < 10 ^ 15 then none else epochNs (n : ℤ)

/-- Line 67: `dt_num = dt_ms.fillna(dt_ns)`. -/
def dt_num_cell (v : Cell) : Option ℤ := fillna (dt_ms_cell v) (dt_ns_cell v)

/-- Line 70: `dt_str`, general date parsing of the non-numeric candidates. -/
def dt_str_cell (v : Cell) : Option ℤ :=
  if is_num_cell v then none else (pdAstypeString v).bind parseDateUtc

/-- Cell-level model of `_safe_to_datetime` (the source works columnwise
with masks; per cell the dataflow is exactly this): render to string,
classify all-digits values as numeric epochs (milliseconds below `1e15`,
nanoseconds otherwise), parse the rest as general date strings, and merge
with `dt_str.fillna(dt_num)` (line 73). -/
def safe_to_datetime_cell (v : Cell) : Option ℤ :=
  fillna (dt_str_cell v) (dt_num_cell v)

/-! ## Dataframes and the pandas operations the source uses -/

/-- A dataframe: an ordered column-name list and positionally aligned rows
(each row lists one cell per column). -/
structure DF where
  cols : List String
  rows : List (List Cell)
  deriving DecidableEq

/-- The empty frame `pd.DataFrame()`. -/
def emptyDF : DF := ⟨[], []⟩

/-- The fields of a record; non-objects have none. -/
def fieldsOf : JVal → JFields
  | .obj fs => fs
  | _ => .nil

/-- `pd.DataFrame(list_of_dicts)`: columns are the union of the keys in
first-appearance order; a row's cell is its record's value under the
column key, missing when the key is absent. -/
def dfOfRecords (recs : List JFields) : DF :=
  let cols := dedupFirst (recs.flatMap (fun r => r.keys))
  ⟨cols, recs.map (fun r => cols.map (fun c => r.lookup c))⟩

/-- `nested_to_record`: dict-valued fields are expanded recursively with
dot-joined keys, scalar fields are kept. -/
def flattenFields : JFields → List (String × JVal)
  | .nil => []
  | .fcons k (.obj fs) rest =>
    (flattenFields fs).map (fun kv => (k ++ "." ++ kv.1, kv.2)) ++ flattenFields rest
  | .fcons k v rest => (k, v) :: flattenFields rest

/-- Build a frame from flattened records (column union plus key lookup,
as `DataFrame(nested_to_record(data))` does). -/
def dfOfPairs (recs : List (List (String × JVal))) : DF :=
  let cols := dedupFirst (recs.flatMap (fun r => r.map Prod.fst))
  ⟨cols, recs.map (fun r => cols.map (fun c => List.lookup c r))⟩

/-- Whether a cell holds a record (a Python dict). -/
def isRecord : Cell → Bool
  | some (.obj _) => true
  | _ => false

/-- The fields of a record cell. -/
def recFieldsOf : Cell → JFields
  | some (.obj fs) => fs
  | _ => .nil

/-- `pd.json_normalize` over a column's values: the empty collection gives
the empty frame, a collection of dicts gives their flattened records as a
frame, and any non-dict entry (NaN, None, a scalar) raises
`AttributeError` (`nested_to_record` calls `.items()` on every entry). -/
def json_normalize (vals : List Cell) : Except String DF :=
  if vals.isEmpty then .ok emptyDF
  else if vals.all isRecord then
    .ok (dfOfPairs (vals.map (fun v => flattenFields (recFieldsOf v))))
  else .error "AttributeError: object has no attribute items"

/-- `DataFrame.add_prefix`. -/
def addColPre (p : String) (df : DF) : DF :=
  ⟨df.cols.map (fun c => p ++ c), df.rows⟩

/-- Column selection `df[names]` (by label, first occurrence). -/
def selectCols (df : DF) (names : List String) : DF :=
  ⟨names, df.rows.map (fun r => names.map (fun c => getCellAux df.cols r c))⟩

/-- Column assignment `df[name] = f(row)`: replaces the column when the
label exists, appends it otherwise; `f` reads the pre-assignment row. -/
def setCol (df : DF) (name : String) (f : List Cell → Cell) : DF :=
  if name ∈ df.cols then ⟨df.cols, df.rows.map (fun r => setRow df.cols r name (f r))⟩
  else ⟨df.cols ++ [name], df.rows.map (fun r => r ++ [f r])⟩

/-- Row restriction of `DataFrame.drop(columns=names)`. -/
def dropRow (cols : List String) (row : List Cell) (names : List String) : List Cell :=
  match cols, row with
  | c :: cs, a :: as_ =>
    if c ∈ names then dropRow cs as_ names else a :: dropRow cs as_ names
  | _, _ => []

/-- `DataFrame.drop(columns=names, errors="ignore")`: every occurrence of
each named label is removed. -/
def dropCols (df : DF) (names : List String) : DF :=
  ⟨df.cols.filter (fun c => c ∉ names), df.rows.map (fun r => dropRow df.cols r names)⟩

/-- `DataFrame.empty`: either axis has length zero. -/
def dfEmpty (df : DF) : Bool := df.rows.isEmpty || df.cols.isEmpty

/-- `pd.concat([a, b], axis=1)` after `reset_index(drop=True)` on both:
column blocks are juxtaposed and rows aligned by position; concatenating
the literal empty frame is the identity. -/
def concatA (a b : DF) : DF :=
  if b.cols.isEmpty ∧ b.rows.isEmpty then a
  else ⟨a.cols ++ b.cols, List.zipWith (fun r s => r ++ s) a.rows b.rows⟩

/-- The values of one column (`df[c]` as a series). -/
def colVals (df : DF) (c : String) : List Cell :=
  df.rows.map (fun r => getCellAux df.cols r c)

/-! ## Numeric coercion (`pd.to_numeric(..., errors="coerce")`) -/

/-- Optional sign followed by a non-empty digit run (an exponent). -/
def expVal (cs : List Char) : Option ℤ :=
  let (sgn, cs1) : ℤ × List Char :=
    match cs with
    | '-' :: r => (-1, r)
    | '+' :: r => (1, r)
    | _ => (1, cs)
  if cs1.isEmpty ∨ ¬ cs1.all Char.isDigit then none
  else some (sgn * (digitsToNat (String.mk cs1) : ℤ))

/-- The exact rational `sgn * mant * 10 ^ (e - fplen)` of a decimal
literal with digit value `mant`, `fplen` fractional digits and decimal
exponent `e`. -/
def decVal (sgn : ℤ) (mant : ℕ) (fplen : ℕ) (e : ℤ) : ℚ :=
  let e2 : ℤ := e - (fplen : ℤ)
  if 0 ≤ e2 then mkRat (sgn * (mant : ℤ) * ((10 ^ e2.toNat : ℕ) : ℤ)) 1
  else mkRat (sgn * (mant : ℤ)) (10 ^ (-e2).toNat)

/-- Parse a Python numeric literal to its exact decimal value: optional
sign, integer digits, an optional fractional part and an optional decimal
exponent. -/
def parseNumStr (s : String) : Option ℚ :=
  let cs := s.toList
  let (sgn, cs1) : ℤ × List Char :=
    match cs with
    | '-' :: r => (-1, r)
    | '+' :: r => (1, r)
    | _ => (1, cs)
  let ip := cs1.takeWhile Char.isDigit
  let cs2 := cs1.drop ip.length
  let withExp : ℕ → ℕ → List Char → Option ℚ := fun mant fplen tail =>
    match tail with
    | [] => some (decVal sgn mant fplen 0)
    | 'e' :: es => (expVal es).map (fun e => decVal sgn mant fplen e)
    | 'E' :: es => (expVal es).map (fun e => decVal sgn mant fplen e)
    | _ => none
  match cs2 with
  | '.' :: fs =>
    let fp := fs.takeWhile Char.isDigit
    let cs3 := fs.drop fp.length
    if ip.isEmpty ∧ fp.isEmpty then none
    else withExp (digitsToNat (String.mk ip) * 10 ^ fp.length
      + digitsToNat (String.mk fp)) fp.length cs3
  | _ => if ip.isEmpty then none
    else withExp (digitsToNat (String.mk ip)) 0 cs2

/-- Fuelled floor-log2 (the fuel only bounds the recursion; calling with
`fuel = n` is always enough). -/
def lg2 : ℕ → ℕ → ℕ
  | _, 0 => 0
  | _, 1 => 0
  | 0, _ => 0
  | fuel + 1, n => lg2 fuel (n / 2) + 1

/-- `⌊log₂ n⌋` for `n ≥ 1`. -/
def lg2N (n : ℕ) : ℕ := lg2 n n

/-- Round `a / b` to the nearest natural, ties to even (numpy's `rint`). -/
def rne (a b : ℕ) : ℕ :=
  let q := a / b
  let r := a % b
  if 2 * r < b then q
  else if b < 2 * r then q + 1
  else if q % 2 = 0 then q else q + 1

/-- Round the positive rational `n / d` to the nearest binary64 value
(53-bit significand, round-to-nearest, ties to even). -/
def flAux (n d : ℕ) : ℚ :=
  let k0 : ℤ := (lg2N n : ℤ) - (lg2N d : ℤ)
  let e : ℤ :=
    if 0 ≤ k0 then (if d * 2 ^ k0.toNat ≤ n then k0 else k0 - 1)
    else (if d ≤ n * 2 ^ (-k0).toNat then k0 else k0 - 1)
  let s : ℤ := e - 52
  if 0 ≤ s then (((rne n (d * 2 ^ s.toNat) * 2 ^ s.toNat : ℕ) : ℤ) : ℚ)
  else mkRat ((rne (n * 2 ^ (-s).toNat) d : ℕ) : ℤ) (2 ^ (-s).toNat)

/-- IEEE-754 binary64 rounding of a rational (round-to-nearest, ties to
even; the exponent is unbounded, so overflow to infinity and subnormal
flush are not modelled — exact within the double's normal range). -/
def fl (q : ℚ) : ℚ :=
  if q.num = 0 then 0
  else if 0 < q.num then flAux q.num.natAbs q.den
  else -(flAux q.num.natAbs q.den)

/-- Round a rational to the nearest integer, ties to even (`rint`). -/
def rneQ (x : ℚ) : ℤ :=
  if 0 ≤ x.num then (rne x.num.natAbs x.den : ℤ) else -(rne x.num.natAbs x.den : ℤ)

/-- Exact rational product (the multiplication fed to `fl`). -/
def qmul (a b : ℚ) : ℚ := mkRat (a.num * b.num) (a.den * b.den)

/-- `Series.round(2)` on a float64 value: numpy multiplies by 100, takes
`rint` (ties to even) and divides by 100, each step in float64. -/
def round2f (x : ℚ) : ℚ := fl (mkRat (rneQ (fl (qmul x 100))) 100)

/-- `pd.to_numeric(cell, errors="coerce")` targeting float64: numbers and
parsed numeric strings become the nearest double, booleans become 0/1,
everything else (missing, None, non-numeric strings, containers) becomes
missing. -/
def to_numeric_cell : Cell → Option ℚ
  | some (.int n) => some (fl (mkRat n 1))
  | some (.float q) => some q
  | some (.bool b) => some (if b then 1 else 0)
  | some (.str s) => (parseNumStr s).map fl
  | _ => none

/-! ## The pipeline of `lambda_handler` -/

/-- The partition columns, dropped from every written file's schema. -/
def PARTITION_COLS : List String := ["order_year", "order_month"]

/-- Default `PROCESSED_PREFIX` (`"processed/store_sales"`, right-stripped). -/
def PROCESSED_DIR : String := "processed/store_sales"

/-- Order-context columns carried into the item table. -/
def ctxCols : List String :=
  ["order_id", "order_timestamp", "order_date", "order_year", "order_month"]

/-- Line 107: `pd.DataFrame(orders)`. -/
def rawDF (orders : List JVal) : DF := dfOfRecords (orders.map fieldsOf)

/-- Line 114: parse `order_timestamp` in place. -/
def parsedDF (orders : List JVal) : DF :=
  let raw := rawDF orders
  setCol raw "order_timestamp"
    (fun r => (safe_to_datetime_cell (getCellAux raw.cols r "order_timestamp")).map JVal.ts)

/-- Line 115: `dropna(subset=["order_timestamp"])`. -/
def survivorsDF (orders : List JVal) : DF :=
  let p := parsedDF orders
  ⟨p.cols, p.rows.filter (fun r => (getCellAux p.cols r "order_timestamp").isSome)⟩

/-- Line 117: `order_date` from the parsed timestamp (`NaT` rows cannot
remain after line 115, where they would stringify to `"NaT"`). -/
def dateFn (orders : List JVal) : List Cell → Cell := fun r =>
  match getCellAux (survivorsDF orders).cols r "order_timestamp" with
  | some (.ts ns) => some (.str (dateStrOfNs ns))
  | _ => some (.str "NaT")

/-- The frame after the `order_date` assignment. -/
def d1DF (orders : List JVal) : DF := setCol (survivorsDF orders) "order_date" (dateFn orders)

/-- Line 118: `order_year` from the parsed timestamp. -/
def yearFn (orders : List JVal) : List Cell → Cell := fun r =>
  match getCellAux (d1DF orders).cols r "order_timestamp" with
  | some (.ts ns) => some (.int (yearOfNs ns))
  | _ => none

/-- The frame after the `order_year` assignment. -/
def d2DF (orders : List JVal) : DF := setCol (d1DF orders) "order_year" (yearFn orders)

/-- Line 119: `order_month` from the parsed timestamp. -/
def monthFn (orders : List JVal) : List Cell → Cell := fun r =>
  match getCellAux (d2DF orders).cols r "order_timestamp" with
  | some (.ts ns) => some (.int (monthOfNs ns))
  | _ => none

/-- Lines 117-119: the raw frame after all three derived assignments. -/
def derivedDF (orders : List JVal) : DF := setCol (d2DF orders) "order_month" (monthFn orders)

/-- Lines 122-132: expand an optional nested column through
`pd.json_normalize(...).add_prefix(pfx)`; an absent column contributes
the empty frame. -/
def nestedBlock (d : DF) (field pfx : String) : Except String DF :=
  if field ∈ d.cols then (json_normalize (colVals d field)).map (addColPre pfx)
  else .ok emptyDF

/-- Line 135: every column except the nested ones. -/
def baseColsOf (d : DF) : List String :=
  d.cols.filter (fun c => c ∉ ["customer", "payment", "items"])

/-- Lines 134-146: FACT_ORDERS — base scalars concatenated with the
expanded `customer_*` / `payment_*` blocks, then `order_total` coerced. -/
def factOrdersDF (orders : List JVal) : Except String DF := do
  let d := derivedDF orders
  let cust ← nestedBlock d "customer" "customer_"
  let pay ← nestedBlock d "payment" "payment_"
  let base := selectCols d (baseColsOf d)
  let fo := concatA (concatA base cust) pay
  pure (if "order_total" ∈ fo.cols
    then setCol fo "order_total"
      (fun r => (to_numeric_cell (getCellAux fo.cols r "order_total")).map JVal.float)
    else fo)

/-- `Series.explode` on one cell: a non-empty list yields its elements,
an empty list yields a single missing value, scalars pass through. -/
def explodeCell : Cell → List Cell
  | some (.arr .nil) => [none]
  | some (.arr l) => l.toList.map some
  | c => [c]

/-- Line 151: the context-plus-items selection `df[ctx_cols + ["items"]]`. -/
def itemsCtxDF (orders : List JVal) : DF :=
  selectCols (derivedDF orders) (ctxCols ++ ["items"])

/-- Line 153: `explode("items", ignore_index=True)` — each row paired with
each of its exploded item values (the non-item cells are `r.dropLast`,
the row minus its trailing `items` cell). -/
def itemsExpl (orders : List JVal) : List (List Cell × Cell) :=
  (itemsCtxDF orders).rows.flatMap (fun r =>
    (explodeCell (getCellAux (itemsCtxDF orders).cols r "items")).map (fun v => (r.dropLast, v)))

/-- Lines 150-159: context selection, `explode("items")`,
`json_normalize` of the item column, and positional concat. -/
def factItemsRawDF (orders : List JVal) : Except String DF := do
  let itemsDf ← json_normalize ((itemsExpl orders).map Prod.snd)
  pure (concatA ⟨ctxCols, (itemsExpl orders).map Prod.fst⟩ itemsDf)

/-- Lines 163-171: numeric coercion of `quantity` and `unit_price` and the
derived `line_total`, guarded by `df.empty`. -/
def coerceItems (t : DF) : DF :=
  if t.rows.isEmpty ∨ t.cols.isEmpty then t
  else
    let t1 := if "quantity" ∈ t.cols
      then setCol t "quantity"
        (fun r => (to_numeric_cell (getCellAux t.cols r "quantity")).map JVal.float)
      else t
    let t2 := if "unit_price" ∈ t1.cols
      then setCol t1 "unit_price"
        (fun r => (to_numeric_cell (getCellAux t1.cols r "unit_price")).map JVal.float)
      else t1
    if "quantity" ∈ t2.cols ∧ "unit_price" ∈ t2.cols then
      setCol t2 "line_total" (fun r =>
        match getCellAux t2.cols r "quantity", getCellAux t2.cols r "unit_price" with
        | some (.float q), some (.float p) => some (.float (round2f (fl (qmul q p))))
        | _, _ => none)
    else t2

/-- Lines 149-171: FACT_ORDER_ITEMS (the empty frame when no order has an
`items` field). -/
def factItemsDF (orders : List JVal) : Except String DF :=
  if "items" ∈ (derivedDF orders).cols then (factItemsRawDF orders).map coerceItems
  else pure emptyDF

/-- The partition key of a row: its `(order_year, order_month)` cells. -/
def partKeyOf (cols : List String) (r : List Cell) : Cell × Cell :=
  (getCellAux cols r "order_year", getCellAux cols r "order_month")

/-- Python `int()` of a partition cell (cells of the `order_year` /
`order_month` columns are int64 by construction). -/
def cellInt : Cell → ℤ
  | some (.int n) => n
  | some (.float q) => if q < 0 then ⌈q⌉ else ⌊q⌋
  | _ => 0

/-- The two output datasets. -/
inductive Dataset where
  | factOrders
  | factOrderItems
  deriving DecidableEq

/-- One uploaded file: its dataset, its S3 key and the frame written. -/
structure WriteOp where
  dataset : Dataset
  key : String
  df : DF
  deriving DecidableEq

/-- Lines 193-197: the Hive-partitioned orders key. -/
def ordersKeyStr (y m : ℤ) (runId : String) : String :=
  PROCESSED_DIR ++ "/fact_orders/" ++ "order_year=" ++ toString y ++
    "/order_month=" ++ toString m ++ "/part-" ++ runId ++ ".parquet"

/-- Lines 198-202: the Hive-partitioned items key. -/
def itemsKeyStr (y m : ℤ) (runId : String) : String :=
  PROCESSED_DIR ++ "/fact_order_items/" ++ "order_year=" ++ toString y ++
    "/order_month=" ++ toString m ++ "/part-" ++ runId ++ ".parquet"

/-- Lines 176-205: one loop iteration — slice both tables to the partition,
drop the partition columns, and upload each non-empty slice
(`_write_parquet_and_upload` skips an empty frame). -/
def writesFor (runId : String) (fo fi : DF) (p : Cell × Cell) : List WriteOp :=
  let y := cellInt p.1
  let m := cellInt p.2
  let ordersPart : DF := ⟨fo.cols, fo.rows.filter (fun r =>
    getCellAux fo.cols r "order_year" = some (.int y) ∧
    getCellAux fo.cols r "order_month" = some (.int m))⟩
  let itemsPart : DF :=
    if fi.rows.isEmpty ∨ fi.cols.isEmpty then emptyDF
    else ⟨fi.cols, fi.rows.filter (fun r =>
      getCellAux fi.cols r "order_year" = some (.int y) ∧
      getCellAux fi.cols r "order_month" = some (.int m))⟩
  let ordersW := dropCols ordersPart PARTITION_COLS
  let itemsW := dropCols itemsPart PARTITION_COLS
  (if ordersW.rows.isEmpty ∨ ordersW.cols.isEmpty then []
   else [⟨.factOrders, ordersKeyStr y m runId, ordersW⟩]) ++
  (if itemsW.rows.isEmpty ∨ itemsW.cols.isEmpty then []
   else [⟨.factOrderItems, itemsKeyStr y m runId, itemsW⟩])

/-- The transformation outcome of one invocation: both tables, the files
written, and the row counts of the returned payload. -/
structure RunOutput where
  factOrders : DF
  factOrderItems : DF
  writes : List WriteOp
  rowsFactOrders : ℕ
  rowsFactOrderItems : ℕ
  deriving DecidableEq

/-- A successful return: either the no-op message for empty or non-array
input, or a full run. -/
inductive HandlerResult where
  | noop (msg : String)
  | run (out : RunOutput)
  deriving DecidableEq

/-- `lambda_handler` from the parsed JSON document onward (S3 transport is
out of scope; `runId` stands for the timestamp-plus-request-id string).
An `Except.error` models a raised exception: nothing is written. -/
def lambda_handler (runId : String) (input : JVal) : Except String HandlerResult :=
  match input with
  | .arr orders0 =>
    let orders := orders0.toList
    if orders.isEmpty then .ok (.noop "No orders found")
    else
      if "order_id" ∉ (rawDF orders).cols ∨ "order_timestamp" ∉ (rawDF orders).cols then
        .error "Missing required fields: order_id and/or order_timestamp"
      else do
        let fo ← factOrdersDF orders
        let fi ← factItemsDF orders
        let parts := dedupFirst (fo.rows.map (fun r => partKeyOf fo.cols r))
        let writes := parts.flatMap (writesFor runId fo fi)
        pure (.run ⟨fo, fi, writes, fo.rows.length,
          if fi.rows.isEmpty ∨ fi.cols.isEmpty then 0 else fi.rows.length⟩)
  | _ => .ok (.noop "No orders found")

/-- Extract the run output of a successful invocation (junk on error/no-op). -/
def outOf (r : Except String HandlerResult) : RunOutput :=
  match r with
  | .ok (.run out) => out
  | _ => ⟨emptyDF, emptyDF, [], 0, 0⟩

/-- The raw `order_timestamp` attribute of an order record. -/
def ordTs (o : JVal) : Cell := (fieldsOf o).lookup "order_timestamp"

/-- The raw `items` attribute of an order record, viewed as a list. -/
def itemsArr (o : JVal) : List JVal :=
  match (fieldsOf o).lookup "items" with
  | some (.arr xs) => xs.toList
  | _ => []

/-! ## Row/column lemmas -/

/-- Well-formedness of a frame: every row has one cell per column. -/
def Wf (df : DF) : Prop := ∀ r ∈ df.rows, r.length = df.cols.length

theorem getCellAux_map (cols : List String) (f : String → Cell) (c : String) :
    getCellAux cols (cols.map f) c = if c ∈ cols then f c else none := by
  induction cols with
  | nil => simp [getCellAux]
  | cons c2 cs ih =>
    simp only [List.map_cons, getCellAux]
    by_cases h : c2 = c
    · subst h; simp
    · rw [if_neg h, ih]
      by_cases hm : c ∈ cs
      · rw [if_pos hm, if_pos (List.mem_cons_of_mem _ hm)]
      · rw [if_neg hm, if_neg (fun hmm => by
          rcases List.mem_cons.mp hmm with h2 | h2
          · exact h h2.symm
          · exact hm h2)]

theorem getCellAux_append_left (c1 c2 : List String) (r1 r2 : List Cell) (c : String)
    (hlen : r1.length = c1.length) (hc : c ∈ c1) :
    getCellAux (c1 ++ c2) (r1 ++ r2) c = getCellAux c1 r1 c := by
  induction c1 generalizing r1 with
  | nil => simp at hc
  | cons a as ih =>
    match r1 with
    | [] => simp at hlen
    | x :: xs =>
      simp only [List.cons_append, getCellAux]
      by_cases hac : a = c
      · simp [hac]
      · rw [if_neg hac, if_neg hac]
        have hc2 : c ∈ as := by
          rcases List.mem_cons.mp hc with h | h
          · exact absurd h.symm hac
          · exact h
        exact ih xs (by simpa using hlen) hc2

theorem getCellAux_append_right (c1 c2 : List String) (r1 r2 : List Cell) (c : String)
    (hlen : r1.length = c1.length) (hc : c ∉ c1) :
    getCellAux (c1 ++ c2) (r1 ++ r2) c = getCellAux c2 r2 c := by
  induction c1 generalizing r1 with
  | nil =>
    match r1 with
    | [] => simp
    | x :: xs => simp at hlen
  | cons a as ih =>
    match r1 with
    | [] => simp at hlen
    | x :: xs =>
      simp only [List.cons_append, getCellAux]
      have hac : a ≠ c := fun h => hc (by simp [h])
      rw [if_neg hac]
      exact ih xs (by simpa using hlen) (fun h => hc (List.mem_cons_of_mem _ h))

theorem getCellAux_none_of_not_mem (cols : List String) (row : List Cell) (c : String)
    (hc : c ∉ cols) : getCellAux cols row c = none := by
  induction cols generalizing row with
  | nil => cases row <;> simp [getCellAux]
  | cons a as ih =>
    match row with
    | [] => simp [getCellAux]
    | x :: xs =>
      have hac : a ≠ c := fun h => hc (by simp [h])
      simp only [getCellAux, if_neg hac]
      exact ih _ (fun h => hc (List.mem_cons_of_mem _ h))

theorem setRow_length (cols : List String) (row : List Cell) (name : String) (x : Cell) :
    (setRow cols row name x).length = row.length := by
  induction cols generalizing row with
  | nil => cases row <;> simp [setRow]
  | cons a as ih =>
    match row with
    | [] => simp [setRow]
    | y :: ys => simp [setRow, ih]

theorem getCellAux_setRow_self (cols : List String) (row : List Cell) (name : String) (x : Cell)
    (hlen : row.length = cols.length) (hc : name ∈ cols) :
    getCellAux cols (setRow cols row name x) name = x := by
  induction cols generalizing row with
  | nil => simp at hc
  | cons a as ih =>
    match row with
    | [] => simp at hlen
    | y :: ys =>
      simp only [setRow, getCellAux]
      by_cases han : a = name
      · simp [han]
      · simp only [if_neg han]
        have : name ∈ as := by
          rcases List.mem_cons.mp hc with h | h
          · exact absurd h.symm han
          · exact h
        exact ih ys (by simpa using hlen) this

theorem getCellAux_setRow_other (cols : List String) (row : List Cell) (name : String) (x : Cell)
    (c : String) (hc : c ≠ name) :
    getCellAux cols (setRow cols row name x) c = getCellAux cols row c := by
  induction cols generalizing row with
  | nil => cases row <;> simp [setRow, getCellAux]
  | cons a as ih =>
    match row with
    | [] => simp [setRow, getCellAux]
    | y :: ys =>
      simp only [setRow, getCellAux]
      by_cases hac : a = c
      · have han : ¬ a = name := fun h => hc (hac.symm.trans h)
        simp only [if_pos hac, if_neg han]
      · simp only [if_neg hac]
        exact ih ys

theorem dropRow_not_mem (cols : List String) (row : List Cell) (names : List String) :
    ∀ c ∈ names, getCellAux (cols.filter (fun c2 => c2 ∉ names)) (dropRow cols row names) c = none := by
  intro c hc
  apply getCellAux_none_of_not_mem
  intro hmem
  have h2 := (List.mem_filter.mp hmem).2
  simp only [decide_eq_true_eq] at h2
  exact h2 hc

/-! ## Deduplication and counting lemmas -/

theorem mem_dedupFirst {α : Type} [DecidableEq α] (a : α) :
    (l : List α) → (a ∈ dedupFirst l ↔ a ∈ l)
  | [] => by simp [dedupFirst]
  | x :: xs => by
    rw [dedupFirst]
    constructor
    · intro h
      rcases List.mem_cons.mp h with h | h
      · exact h ▸ List.mem_cons_self _ _
      · exact List.mem_cons_of_mem _
          ((mem_dedupFirst a xs).mp (List.mem_of_mem_filter h))
    · intro h
      rcases List.mem_cons.mp h with h | h
      · exact h ▸ List.mem_cons_self _ _
      · by_cases hax : a = x
        · exact hax ▸ List.mem_cons_self _ _
        · exact List.mem_cons_of_mem _
            (List.mem_filter.mpr ⟨(mem_dedupFirst a xs).mpr h, by simp [hax]⟩)

theorem nodup_dedupFirst {α : Type} [DecidableEq α] :
    (l : List α) → (dedupFirst l).Nodup
  | [] => by simp [dedupFirst]
  | x :: xs => by
    rw [dedupFirst]
    refine List.nodup_cons.mpr ⟨?_, List.Nodup.filter _ (nodup_dedupFirst xs)⟩
    intro hmem
    have h3 := (List.mem_filter.mp hmem).2
    simp at h3

theorem sum_map_add2 {α : Type} (l : List α) (f g : α → ℕ) :
    (l.map (fun x => f x + g x)).sum = (l.map f).sum + (l.map g).sum := by
  induction l with
  | nil => simp
  | cons a as ih => simp only [List.map_cons, List.sum_cons, ih]; omega

theorem sum_ite_one {K : Type} [DecidableEq K] (dl : List K) (hnd : dl.Nodup)
    (a : K) (ha : a ∈ dl) :
    (dl.map (fun p => if a = p then 1 else 0)).sum = 1 := by
  induction dl with
  | nil => simp at ha
  | cons x xs ih =>
    rcases List.nodup_cons.mp hnd with ⟨hx, hxs⟩
    rcases List.mem_cons.mp ha with h | h
    · subst h
      simp only [List.map_cons, List.sum_cons, if_pos rfl]
      have hz : (xs.map (fun p => if a = p then 1 else 0)).sum = 0 := by
        apply List.sum_eq_zero
        intro n hn
        rcases List.mem_map.mp hn with ⟨p, hp, hpe⟩
        have hne : ¬ a = p := fun he => hx (he ▸ hp)
        simp [← hpe, hne]
      rw [hz]
      simp
    · have hax : ¬ a = x := fun he => hx (he ▸ h)
      simp only [List.map_cons, List.sum_cons, if_neg hax, ih hxs h]

theorem sum_filter_lengths {K R : Type} [DecidableEq K] [DecidableEq R] (dl : List K)
    (hnd : dl.Nodup) (k : R → K) (rows : List R) (hmem : ∀ r ∈ rows, k r ∈ dl) :
    (dl.map (fun p => (rows.filter (fun r => k r = p)).length)).sum = rows.length := by
  induction rows with
  | nil => simp
  | cons r rs ih =>
    have hsplit : ∀ p : K, (List.filter (fun x => decide (k x = p)) (r :: rs)).length
        = (if k r = p then 1 else 0) + (List.filter (fun x => decide (k x = p)) rs).length := by
      intro p
      by_cases h : k r = p <;> simp [List.filter_cons, h] <;> omega
    simp only [hsplit]
    rw [sum_map_add2, sum_ite_one dl hnd (k r) (hmem r (List.mem_cons_self _ _)),
      ih (fun x hx => hmem x (List.mem_cons_of_mem _ hx))]
    simp only [List.length_cons]
    omega

theorem zipWith_map_same {α β γ δ : Type} (l : List α) (f : α → β) (g : α → γ)
    (h : β → γ → δ) :
    List.zipWith h (l.map f) (l.map g) = l.map (fun x => h (f x) (g x)) := by
  induction l with
  | nil => simp
  | cons a as ih => simp [ih]

theorem filter_map2 {α β : Type} (l : List α) (f : α → β) (p : β → Bool) :
    (l.map f).filter p = (l.filter (fun x => p (f x))).map f := by
  induction l with
  | nil => simp
  | cons a as ih =>
    by_cases h : p (f a) = true
    · simp [List.filter_cons, h, ih]
    · simp only [List.map_cons, List.filter_cons, h]
      simp only [Bool.false_eq_true, if_false, if_neg]
      exact ih

/-! ## `setCol` characterization -/

/-- The per-row transform performed by `setCol`. -/
def setCellRow (df : DF) (name : String) (f : List Cell → Cell) (r : List Cell) : List Cell :=
  if name ∈ df.cols then setRow df.cols r name (f r) else r ++ [f r]

theorem setCol_cols (df : DF) (name : String) (f : List Cell → Cell) :
    (setCol df name f).cols = if name ∈ df.cols then df.cols else df.cols ++ [name] := by
  by_cases h : name ∈ df.cols <;> simp [setCol, h]

theorem setCol_rows (df : DF) (name : String) (f : List Cell → Cell) :
    (setCol df name f).rows = df.rows.map (setCellRow df name f) := by
  by_cases h : name ∈ df.cols <;> simp [setCol, setCellRow, h]

theorem mem_setCol_cols_of_mem (df : DF) (name c : String) (f : List Cell → Cell)
    (hc : c ∈ df.cols) : c ∈ (setCol df name f).cols := by
  rw [setCol_cols]
  by_cases h : name ∈ df.cols
  · simpa [h]
  · simp [h, List.mem_append, hc]

theorem mem_setCol_cols_self (df : DF) (name : String) (f : List Cell → Cell) :
    name ∈ (setCol df name f).cols := by
  rw [setCol_cols]
  by_cases h : name ∈ df.cols <;> simp [h]

theorem mem_setCol_cols_iff (df : DF) (name c : String) (f : List Cell → Cell) :
    c ∈ (setCol df name f).cols ↔ c ∈ df.cols ∨ c = name := by
  rw [setCol_cols]
  by_cases h : name ∈ df.cols
  · simp only [if_pos h]
    constructor
    · exact fun hc => Or.inl hc
    · rintro (hc | hc)
      · exact hc
      · exact hc ▸ h
  · simp [h, List.mem_append]

theorem setCellRow_length (df : DF) (name : String) (f : List Cell → Cell) (r : List Cell)
    (hr : r.length = df.cols.length) :
    (setCellRow df name f r).length = (setCol df name f).cols.length := by
  rw [setCol_cols]
  by_cases h : name ∈ df.cols
  · simp [setCellRow, h, setRow_length, hr]
  · simp [setCellRow, h, hr]

theorem getCell_setCellRow_self (df : DF) (name : String) (f : List Cell → Cell) (r : List Cell)
    (hr : r.length = df.cols.length) :
    getCellAux (setCol df name f).cols (setCellRow df name f r) name = f r := by
  rw [setCol_cols]
  by_cases h : name ∈ df.cols
  · simp only [if_pos h, setCellRow, h, if_true]
    exact getCellAux_setRow_self _ _ _ _ hr h
  · simp only [if_neg h, setCellRow, h, if_false]
    rw [getCellAux_append_right _ _ _ _ _ hr h]
    simp [getCellAux]

theorem getCell_setCellRow_other (df : DF) (name : String) (f : List Cell → Cell) (r : List Cell)
    (c : String) (hc : c ≠ name) (hr : r.length = df.cols.length) :
    getCellAux (setCol df name f).cols (setCellRow df name f r) c = getCellAux df.cols r c := by
  rw [setCol_cols]
  by_cases h : name ∈ df.cols
  · simp only [if_pos h, setCellRow, h, if_true]
    exact getCellAux_setRow_other _ _ _ _ _ hc
  · simp only [if_neg h, setCellRow, h, if_false]
    by_cases hcm : c ∈ df.cols
    · exact getCellAux_append_left _ _ _ _ _ hr hcm
    · rw [getCellAux_none_of_not_mem _ _ _ hcm, getCellAux_none_of_not_mem]
      intro hmem
      rcases List.mem_append.mp hmem with h2 | h2
      · exact hcm h2
      · rcases List.mem_cons.mp h2 with h3 | h3
        · exact hc h3
        · simp at h3

theorem wf_setCol (df : DF) (name : String) (f : List Cell → Cell) (hwf : Wf df) :
    Wf (setCol df name f) := by
  intro r hr
  rw [setCol_rows] at hr
  rcases List.mem_map.mp hr with ⟨r0, hr0, hre⟩
  rw [← hre]
  exact setCellRow_length _ _ _ _ (hwf r0 hr0)

theorem setCol_nodup (df : DF) (name : String) (f : List Cell → Cell)
    (hnd : df.cols.Nodup) : (setCol df name f).cols.Nodup := by
  rw [setCol_cols]
  by_cases h : name ∈ df.cols
  · simpa [h]
  · simp only [if_neg h]
    rw [List.nodup_append]
    exact ⟨hnd, List.nodup_singleton _, by simpa [List.Disjoint] using fun a ha hb => h ((hb : a = name) ▸ ha)⟩

theorem wf_dfOfRecords (recs : List JFields) : Wf (dfOfRecords recs) := by
  intro r hr
  simp only [dfOfRecords] at hr ⊢
  rcases List.mem_map.mp hr with ⟨r0, _, hre⟩
  simp [← hre]

theorem wf_dfOfPairs (recs : List (List (String × JVal))) : Wf (dfOfPairs recs) := by
  intro r hr
  simp only [dfOfPairs] at hr ⊢
  rcases List.mem_map.mp hr with ⟨r0, _, hre⟩
  simp [← hre]

theorem wf_selectCols (df : DF) (names : List String) : Wf (selectCols df names) := by
  intro r hr
  simp only [selectCols] at hr ⊢
  rcases List.mem_map.mp hr with ⟨r0, _, hre⟩
  simp [← hre]

/-! ## Characterization of the order-level stages -/

/-- The in-place parse applied to the `order_timestamp` column. -/
def parseF (l : List JVal) : List Cell → Cell := fun r =>
  (safe_to_datetime_cell (getCellAux (rawDF l).cols r "order_timestamp")).map JVal.ts

/-- Whether an order survives `dropna(subset=["order_timestamp"])`. -/
def keepOrder (o : JVal) : Bool := (safe_to_datetime_cell (ordTs o)).isSome

/-- The raw-frame row of one order. -/
def rawRow (l : List JVal) (o : JVal) : List Cell :=
  (rawDF l).cols.map (fun c => (fieldsOf o).lookup c)

theorem rawDF_rows (l : List JVal) : (rawDF l).rows = l.map (rawRow l) := by
  simp [rawDF, dfOfRecords, rawRow, List.map_map]

theorem wf_rawDF (l : List JVal) : Wf (rawDF l) := wf_dfOfRecords _

theorem rawRow_length (l : List JVal) (o : JVal) :
    (rawRow l o).length = (rawDF l).cols.length := by simp [rawRow]

theorem rawRow_cell (l : List JVal) (o : JVal) (c : String) (hc : c ∈ (rawDF l).cols) :
    getCellAux (rawDF l).cols (rawRow l o) c = (fieldsOf o).lookup c := by
  rw [rawRow, getCellAux_map, if_pos hc]

theorem parsedDF_def (l : List JVal) :
    parsedDF l = setCol (rawDF l) "order_timestamp" (parseF l) := rfl

theorem wf_parsedDF (l : List JVal) : Wf (parsedDF l) :=
  wf_setCol _ _ _ (wf_rawDF l)

theorem survivorsDF_cols (l : List JVal) : (survivorsDF l).cols = (parsedDF l).cols := rfl

theorem survivorsDF_rows (l : List JVal) :
    (survivorsDF l).rows = (parsedDF l).rows.filter
      (fun r => (getCellAux (parsedDF l).cols r "order_timestamp").isSome) := rfl

theorem wf_survivorsDF (l : List JVal) : Wf (survivorsDF l) := by
  intro r hr
  rw [survivorsDF_rows] at hr
  exact wf_parsedDF l r (List.mem_of_mem_filter hr)

/-- The survivor row of one order that passes timestamp parsing. -/
def survRow (l : List JVal) (o : JVal) : List Cell :=
  setCellRow (rawDF l) "order_timestamp" (parseF l) (rawRow l o)

theorem survRow_length (l : List JVal) (o : JVal) :
    (survRow l o).length = (survivorsDF l).cols.length := by
  rw [survRow, survivorsDF_cols, parsedDF_def]
  exact setCellRow_length _ _ _ _ (rawRow_length l o)

theorem survRow_ts (l : List JVal) (o : JVal) (hts : "order_timestamp" ∈ (rawDF l).cols) :
    getCellAux (survivorsDF l).cols (survRow l o) "order_timestamp"
      = (safe_to_datetime_cell (ordTs o)).map JVal.ts := by
  rw [survRow, survivorsDF_cols, parsedDF_def,
    getCell_setCellRow_self _ _ _ _ (rawRow_length l o), parseF, rawRow_cell _ _ _ hts, ordTs]

theorem survRow_other (l : List JVal) (o : JVal) (c : String) (hc : c ≠ "order_timestamp") :
    getCellAux (survivorsDF l).cols (survRow l o) c
      = getCellAux (rawDF l).cols (rawRow l o) c := by
  rw [survRow, survivorsDF_cols, parsedDF_def]
  exact getCell_setCellRow_other _ _ _ _ _ hc (rawRow_length l o)

theorem parsedDF_rows (l : List JVal) : (parsedDF l).rows = l.map (survRow l) := by
  rw [parsedDF_def, setCol_rows, rawDF_rows, List.map_map]
  simp [Function.comp, survRow]

theorem survivors_rows_map (l : List JVal) (hts : "order_timestamp" ∈ (rawDF l).cols) :
    (survivorsDF l).rows = (l.filter keepOrder).map (survRow l) := by
  rw [survivorsDF_rows, parsedDF_rows, filter_map2]
  have hcong : ∀ o ∈ l,
      ((getCellAux (parsedDF l).cols (survRow l o) "order_timestamp").isSome) = keepOrder o := by
    intro o _
    rw [show (parsedDF l).cols = (survivorsDF l).cols from rfl, survRow_ts l o hts]
    cases h2 : safe_to_datetime_cell (ordTs o) <;> simp [keepOrder, h2]
  rw [List.filter_congr hcong]

theorem survivors_mem_spec (l : List JVal) (hts : "order_timestamp" ∈ (rawDF l).cols) :
    ∀ r ∈ (survivorsDF l).rows, ∃ o ∈ l, keepOrder o = true ∧ r = survRow l o := by
  intro r hr
  rw [survivors_rows_map l hts] at hr
  rcases List.mem_map.mp hr with ⟨o, ho, hre⟩
  exact ⟨o, List.mem_of_mem_filter ho, List.of_mem_filter ho, hre.symm⟩

theorem survivors_ts_cell (l : List JVal) (hts : "order_timestamp" ∈ (rawDF l).cols) :
    ∀ r ∈ (survivorsDF l).rows, ∃ ns : ℤ,
      getCellAux (survivorsDF l).cols r "order_timestamp" = some (.ts ns) := by
  intro r hr
  rcases survivors_mem_spec l hts r hr with ⟨o, _, hk, hre⟩
  rcases Option.isSome_iff_exists.mp (by simpa [keepOrder] using hk) with ⟨ns, hns⟩
  exact ⟨ns, by rw [hre, survRow_ts l o hts, hns]; rfl⟩

/-! ## Characterization of the derived frame -/

/-- The transform taking a survivor row to its row in the derived frame. -/
def derivRow (l : List JVal) (r : List Cell) : List Cell :=
  setCellRow (d2DF l) "order_month" (monthFn l)
    (setCellRow (d1DF l) "order_year" (yearFn l)
      (setCellRow (survivorsDF l) "order_date" (dateFn l) r))

theorem derivedDF_rows_map (l : List JVal) :
    (derivedDF l).rows = (survivorsDF l).rows.map (derivRow l) := by
  rw [derivedDF, setCol_rows, d2DF, setCol_rows, d1DF, setCol_rows, List.map_map, List.map_map]
  rfl

theorem wf_derivedDF (l : List JVal) : Wf (derivedDF l) :=
  wf_setCol _ _ _ (wf_setCol _ _ _ (wf_setCol _ _ _ (wf_survivorsDF l)))

theorem derivedDF_cols_iff (l : List JVal) (c : String) :
    c ∈ (derivedDF l).cols ↔
      c ∈ (parsedDF l).cols ∨ c = "order_date" ∨ c = "order_year" ∨ c = "order_month" := by
  rw [derivedDF, mem_setCol_cols_iff, d2DF, mem_setCol_cols_iff, d1DF, mem_setCol_cols_iff]
  rw [show (survivorsDF l).cols = (parsedDF l).cols from rfl]
  tauto

theorem derived_cells (l : List JVal) (r : List Cell)
    (hr : r.length = (survivorsDF l).cols.length) :
    (∀ c, c ≠ "order_date" → c ≠ "order_year" → c ≠ "order_month" →
      getCellAux (derivedDF l).cols (derivRow l r) c
        = getCellAux (survivorsDF l).cols r c) ∧
    getCellAux (derivedDF l).cols (derivRow l r) "order_date" = dateFn l r ∧
    getCellAux (derivedDF l).cols (derivRow l r) "order_year"
      = (match getCellAux (survivorsDF l).cols r "order_timestamp" with
         | some (.ts ns) => some (.int (yearOfNs ns))
         | _ => none) ∧
    getCellAux (derivedDF l).cols (derivRow l r) "order_month"
      = (match getCellAux (survivorsDF l).cols r "order_timestamp" with
         | some (.ts ns) => some (.int (monthOfNs ns))
         | _ => none) ∧
    (derivRow l r).length = (derivedDF l).cols.length := by
  have len1 : (setCellRow (survivorsDF l) "order_date" (dateFn l) r).length
      = (d1DF l).cols.length := setCellRow_length _ _ _ _ hr
  have len2 : (setCellRow (d1DF l) "order_year" (yearFn l)
      (setCellRow (survivorsDF l) "order_date" (dateFn l) r)).length
      = (d2DF l).cols.length := setCellRow_length _ _ _ _ len1
  have hts1 : ∀ c, c ≠ "order_date" →
      getCellAux (d1DF l).cols (setCellRow (survivorsDF l) "order_date" (dateFn l) r) c
        = getCellAux (survivorsDF l).cols r c := by
    intro c hc
    exact getCell_setCellRow_other _ _ _ _ _ hc hr
  have hts2 : ∀ c, c ≠ "order_date" → c ≠ "order_year" →
      getCellAux (d2DF l).cols (setCellRow (d1DF l) "order_year" (yearFn l)
        (setCellRow (survivorsDF l) "order_date" (dateFn l) r)) c
        = getCellAux (survivorsDF l).cols r c := by
    intro c hcd hcy
    rw [show (d2DF l).cols = (setCol (d1DF l) "order_year" (yearFn l)).cols from rfl,
      getCell_setCellRow_other _ _ _ _ _ hcy len1]
    exact hts1 c hcd
  refine ⟨?_, ?_, ?_, ?_, ?_⟩
  · intro c hcd hcy hcm
    rw [derivRow, show (derivedDF l).cols = (setCol (d2DF l) "order_month" (monthFn l)).cols from rfl,
      getCell_setCellRow_other _ _ _ _ _ hcm len2]
    exact hts2 c hcd hcy
  · rw [derivRow, show (derivedDF l).cols = (setCol (d2DF l) "order_month" (monthFn l)).cols from rfl,
      getCell_setCellRow_other _ _ _ _ _ (by decide) len2,
      show (d2DF l).cols = (setCol (d1DF l) "order_year" (yearFn l)).cols from rfl,
      getCell_setCellRow_other _ _ _ _ _ (by decide) len1,
      show (d1DF l).cols = (setCol (survivorsDF l) "order_date" (dateFn l)).cols from rfl,
      getCell_setCellRow_self _ _ _ _ hr]
  · rw [derivRow, show (derivedDF l).cols = (setCol (d2DF l) "order_month" (monthFn l)).cols from rfl,
      getCell_setCellRow_other _ _ _ _ _ (by decide) len2,
      show (d2DF l).cols = (setCol (d1DF l) "order_year" (yearFn l)).cols from rfl,
      getCell_setCellRow_self _ _ _ _ len1]
    show (match getCellAux (d1DF l).cols (setCellRow (survivorsDF l) "order_date" (dateFn l) r)
        "order_timestamp" with
      | some (.ts ns) => some (JVal.int (yearOfNs ns))
      | _ => none) = _
    rw [hts1 "order_timestamp" (by decide)]
  · rw [derivRow, show (derivedDF l).cols = (setCol (d2DF l) "order_month" (monthFn l)).cols from rfl,
      getCell_setCellRow_self _ _ _ _ len2]
    show (match getCellAux (d2DF l).cols (setCellRow (d1DF l) "order_year" (yearFn l)
        (setCellRow (survivorsDF l) "order_date" (dateFn l) r)) "order_timestamp" with
      | some (.ts ns) => some (JVal.int (monthOfNs ns))
      | _ => none) = _
    rw [hts2 "order_timestamp" (by decide) (by decide)]
  · rw [derivRow, show (derivedDF l).cols = (setCol (d2DF l) "order_month" (monthFn l)).cols from rfl]
    exact setCellRow_length _ _ _ _ len2

/-! ## Characterization of FACT_ORDERS -/

theorem json_normalize_ok_rows (vals : List Cell) (b : DF) (h : json_normalize vals = .ok b) :
    b.rows = vals.map (fun v => b.cols.map (fun c => List.lookup c (flattenFields (recFieldsOf v)))) := by
  by_cases he : vals.isEmpty
  · rw [json_normalize, if_pos he] at h
    cases h
    rw [List.isEmpty_iff.mp he]
    rfl
  · rw [json_normalize, if_neg he] at h
    by_cases ha : vals.all isRecord
    · rw [if_pos ha] at h
      cases h
      simp [dfOfPairs, List.map_map]
    · rw [if_neg ha] at h
      cases h

theorem nestedBlock_map_rows (l : List JVal) (field pfx : String) (b : DF)
    (h : nestedBlock (derivedDF l) field pfx = .ok b) :
    (b.cols.isEmpty ∧ b.rows.isEmpty) ∨
    ∃ g : List Cell → List Cell,
      b.rows = (derivedDF l).rows.map g ∧ ∀ r, (g r).length = b.cols.length := by
  by_cases hf : field ∈ (derivedDF l).cols
  · right
    rw [nestedBlock, if_pos hf] at h
    cases hjn : json_normalize (colVals (derivedDF l) field) with
    | error e => rw [hjn] at h; cases h
    | ok b0 =>
      rw [hjn] at h
      cases h
      have hrows := json_normalize_ok_rows _ _ hjn
      refine ⟨fun r => b0.cols.map (fun c =>
        List.lookup c (flattenFields (recFieldsOf (getCellAux (derivedDF l).cols r field)))), ?_, ?_⟩
      · show b0.rows = _
        rw [hrows, colVals, List.map_map]
        rfl
      · intro r
        simp [addColPre]
  · left
    rw [nestedBlock, if_neg hf] at h
    cases h
    exact ⟨rfl, rfl⟩

theorem concatA_map (a b : DF) (L : List (List Cell)) (fa : List Cell → List Cell)
    (ha : a.rows = L.map fa) (ha2 : ∀ r, (fa r).length = a.cols.length)
    (hb : (b.cols.isEmpty ∧ b.rows.isEmpty) ∨
      ∃ g, b.rows = L.map g ∧ ∀ r, (g r).length = b.cols.length) :
    ∃ (F : List Cell → List Cell) (tail : List String),
      (concatA a b).cols = a.cols ++ tail ∧
      (concatA a b).rows = L.map F ∧
      (∀ r, (F r).length = (concatA a b).cols.length) ∧
      (∀ r c, c ∈ a.cols → getCellAux (concatA a b).cols (F r) c = getCellAux a.cols (fa r) c) := by
  by_cases hbe : b.cols.isEmpty ∧ b.rows.isEmpty
  · refine ⟨fa, [], ?_, ?_, ?_, ?_⟩
    · rw [concatA, if_pos hbe, List.append_nil]
    · rw [concatA, if_pos hbe]; exact ha
    · intro r; rw [concatA, if_pos hbe]
      exact ha2 r
    · intro r c _
      rw [concatA, if_pos hbe]
  · rcases hb with hb | ⟨g, hg, hglen⟩
    · exact absurd hb hbe
    · refine ⟨fun x => fa x ++ g x, b.cols, ?_, ?_, ?_, ?_⟩
      · rw [concatA, if_neg hbe]
      · rw [concatA, if_neg hbe]
        show List.zipWith _ a.rows b.rows = _
        rw [ha, hg, zipWith_map_same]
      · intro r
        rw [concatA, if_neg hbe]
        simp [ha2 r, hglen r]
      · intro r c hc
        rw [concatA, if_neg hbe]
        exact getCellAux_append_left _ _ _ _ _ (ha2 r) hc

theorem baseColsOf_sub (d : DF) : ∀ c ∈ baseColsOf d, c ∈ d.cols := by
  intro c hc
  exact List.mem_of_mem_filter hc

theorem factOrdersDF_ok_inv (l : List JVal) (fo : DF) (h : factOrdersDF l = .ok fo) :
    ∃ cust pay : DF,
      nestedBlock (derivedDF l) "customer" "customer_" = .ok cust ∧
      nestedBlock (derivedDF l) "payment" "payment_" = .ok pay ∧
      fo = (let fo0 := concatA (concatA (selectCols (derivedDF l)
              (baseColsOf (derivedDF l))) cust) pay
        if "order_total" ∈ fo0.cols
        then setCol fo0 "order_total"
          (fun r => (to_numeric_cell (getCellAux fo0.cols r "order_total")).map JVal.float)
        else fo0) := by
  rw [factOrdersDF] at h
  cases hcust : nestedBlock (derivedDF l) "customer" "customer_" with
  | error e =>
    rw [hcust] at h
    simp only [Bind.bind, Except.bind] at h
    exact Except.noConfusion h
  | ok cust =>
    rw [hcust] at h
    simp only [Bind.bind, Except.bind] at h
    cases hpay : nestedBlock (derivedDF l) "payment" "payment_" with
    | error e =>
      rw [hpay] at h
      simp only at h
      exact Except.noConfusion h
    | ok pay =>
      rw [hpay] at h
      simp only [pure, Except.pure, Except.ok.injEq] at h
      exact ⟨cust, pay, rfl, rfl, h.symm⟩

theorem factOrders_spec (l : List JVal) (fo : DF) (h : factOrdersDF l = .ok fo) :
    ∃ (F : List Cell → List Cell) (tail : List String),
      fo.cols = baseColsOf (derivedDF l) ++ tail ∧
      fo.rows = (derivedDF l).rows.map F ∧
      ∀ r, (F r).length = fo.cols.length ∧
        ∀ c, c ∈ baseColsOf (derivedDF l) → c ≠ "order_total" →
          getCellAux fo.cols (F r) c = getCellAux (derivedDF l).cols r c := by
  rcases factOrdersDF_ok_inv l fo h with ⟨cust, pay, hcust, hpay, hfo⟩
  have hbase_rows : (selectCols (derivedDF l) (baseColsOf (derivedDF l))).rows
      = (derivedDF l).rows.map
        (fun r => (baseColsOf (derivedDF l)).map
          (fun c => getCellAux (derivedDF l).cols r c)) := rfl
  have hbase_len : ∀ r : List Cell,
      ((baseColsOf (derivedDF l)).map (fun c => getCellAux (derivedDF l).cols r c)).length
      = (selectCols (derivedDF l) (baseColsOf (derivedDF l))).cols.length := by
    intro r
    simp [selectCols]
  obtain ⟨F1, t1, hc1, hr1, hl1, hp1⟩ :=
    concatA_map (selectCols (derivedDF l) (baseColsOf (derivedDF l))) cust (derivedDF l).rows
      (fun r => (baseColsOf (derivedDF l)).map (fun c => getCellAux (derivedDF l).cols r c))
      hbase_rows hbase_len (nestedBlock_map_rows l _ _ _ hcust)
  obtain ⟨F2, t2, hc2, hr2, hl2, hp2⟩ :=
    concatA_map (concatA (selectCols (derivedDF l) (baseColsOf (derivedDF l))) cust) pay
      (derivedDF l).rows F1 hr1 hl1 (nestedBlock_map_rows l _ _ _ hpay)
  set FO : DF :=
    concatA (concatA (selectCols (derivedDF l) (baseColsOf (derivedDF l))) cust) pay with hFO
  have hbasecols : (selectCols (derivedDF l) (baseColsOf (derivedDF l))).cols
      = baseColsOf (derivedDF l) := rfl
  have hchain : ∀ (r : List Cell) (c : String), c ∈ baseColsOf (derivedDF l) →
      getCellAux FO.cols (F2 r) c = getCellAux (derivedDF l).cols r c := by
    intro r c hc
    rw [hp2 r c (by rw [hc1, hbasecols]; exact List.mem_append_left _ hc),
      hp1 r c (by rw [hbasecols]; exact hc), hbasecols, getCellAux_map, if_pos hc]
  by_cases hot : "order_total" ∈ FO.cols
  · simp only [if_pos hot] at hfo
    refine ⟨fun r => setCellRow FO "order_total"
        (fun r2 => (to_numeric_cell (getCellAux FO.cols r2 "order_total")).map JVal.float)
        (F2 r), t1 ++ t2, ?_, ?_, ?_⟩
    · rw [hfo, setCol_cols, if_pos hot, hc2, hc1, hbasecols, List.append_assoc]
    · rw [hfo, setCol_rows, hr2, List.map_map]
      rfl
    · intro r
      constructor
      · rw [hfo, setCol_cols, if_pos hot]
        have h3 := setCellRow_length FO "order_total"
          (fun r2 => (to_numeric_cell (getCellAux FO.cols r2 "order_total")).map JVal.float)
          (F2 r) (hl2 r)
        rw [setCol_cols, if_pos hot] at h3
        exact h3
      · intro c hc hcot
        rw [hfo, show (setCol FO "order_total"
            (fun r2 => (to_numeric_cell (getCellAux FO.cols r2 "order_total")).map JVal.float)).cols
          = (setCol FO "order_total"
            (fun r2 => (to_numeric_cell (getCellAux FO.cols r2 "order_total")).map
              JVal.float)).cols from rfl,
          getCell_setCellRow_other _ _ _ _ _ hcot (hl2 r)]
        exact hchain r c hc
  · simp only [if_neg hot] at hfo
    refine ⟨F2, t1 ++ t2, ?_, ?_, ?_⟩
    · rw [hfo, hc2, hc1, hbasecols, List.append_assoc]
    · rw [hfo]
      exact hr2
    · intro r
      refine ⟨by rw [hfo]; exact hl2 r, ?_⟩
      intro c hc _
      rw [hfo]
      exact hchain r c hc

/-! ## Characterization of FACT_ORDER_ITEMS -/

theorem explodeCell_ne_nil (c : Cell) : explodeCell c ≠ [] := by
  match c with
  | some (.arr .nil) => simp [explodeCell]
  | some (.arr (.lcons v l)) => simp [explodeCell, JList.toList]
  | none => simp [explodeCell]
  | some (.str s) => simp [explodeCell]
  | some (.int n) => simp [explodeCell]
  | some (.float q) => simp [explodeCell]
  | some (.bool b) => simp [explodeCell]
  | some .null => simp [explodeCell]
  | some (.obj f) => simp [explodeCell]
  | some (.ts n) => simp [explodeCell]

theorem flatMap_eq_nil_of_ne {α β : Type} (l : List α) (f : α → List β)
    (h : l.flatMap f = []) (hne : ∀ x, f x ≠ []) : l = [] := by
  cases l with
  | nil => rfl
  | cons x xs =>
    rw [List.flatMap_cons] at h
    exact absurd (List.append_eq_nil.mp h).1 (hne x)

theorem flatMap_congr_fun {α β : Type} (l : List α) (f g : α → List β)
    (h : ∀ x, f x = g x) : l.flatMap f = l.flatMap g := by
  induction l with
  | nil => rfl
  | cons a as ih => rw [List.flatMap_cons, List.flatMap_cons, h a, ih]

theorem itemsExpl_eq (l : List JVal) :
    itemsExpl l = (derivedDF l).rows.flatMap (fun r =>
      (explodeCell (getCellAux (derivedDF l).cols r "items")).map
        (fun v => (ctxCols.map (fun c => getCellAux (derivedDF l).cols r c), v))) := by
  rw [itemsExpl,
    show (itemsCtxDF l).rows = (derivedDF l).rows.map
      (fun r => (ctxCols ++ ["items"]).map (fun c => getCellAux (derivedDF l).cols r c)) from rfl,
    List.flatMap_map]
  apply flatMap_congr_fun
  intro r
  have h1 : getCellAux (itemsCtxDF l).cols
      ((ctxCols ++ ["items"]).map (fun c => getCellAux (derivedDF l).cols r c)) "items"
      = getCellAux (derivedDF l).cols r "items" := by
    rw [show (itemsCtxDF l).cols = ctxCols ++ ["items"] from rfl, getCellAux_map,
      if_pos (by decide)]
  have h2 : (((ctxCols ++ ["items"]).map (fun c => getCellAux (derivedDF l).cols r c)).dropLast)
      = ctxCols.map (fun c => getCellAux (derivedDF l).cols r c) := by
    rw [List.map_append]
    simp [List.dropLast_concat]
  rw [h1, h2]

section
attribute [local irreducible] dedupFirst

theorem factItemsRaw_spec (l : List JVal) (fi0 : DF) (h : factItemsRawDF l = .ok fi0) :
    ∃ (G : List Cell → Cell → List Cell) (itemcols : List String),
      fi0.cols = ctxCols ++ itemcols ∧
      fi0.rows = (derivedDF l).rows.flatMap (fun d =>
        (explodeCell (getCellAux (derivedDF l).cols d "items")).map (G d)) ∧
      ∀ d v, (G d v).length = fi0.cols.length ∧
        ∀ c, c ∈ ctxCols →
          getCellAux fi0.cols (G d v) c = getCellAux (derivedDF l).cols d c := by
  rw [factItemsRawDF] at h
  cases hjn : json_normalize ((itemsExpl l).map Prod.snd) with
  | error e =>
    rw [hjn] at h
    simp only [Bind.bind, Except.bind] at h
    exact Except.noConfusion h
  | ok itemsDf =>
    rw [hjn] at h
    simp only [Bind.bind, Except.bind, pure, Except.pure, Except.ok.injEq] at h
    subst h
    have hrows := json_normalize_ok_rows _ _ hjn
    by_cases hbe : itemsDf.cols.isEmpty ∧ itemsDf.rows.isEmpty
    · have hsnd : (itemsExpl l).map Prod.snd = [] := by
        have h0 := List.isEmpty_iff.mp hbe.2
        rw [hrows] at h0
        exact List.map_eq_nil.mp h0
      have hexpl : itemsExpl l = [] := List.map_eq_nil.mp hsnd
      have hdrows : (derivedDF l).rows = [] := by
        apply flatMap_eq_nil_of_ne _ _ ((itemsExpl_eq l).symm.trans hexpl)
        intro x hx
        exact explodeCell_ne_nil _ (List.map_eq_nil.mp hx)
      refine ⟨fun d _ => ctxCols.map (fun c => getCellAux (derivedDF l).cols d c), [], ?_, ?_, ?_⟩
      · rw [concatA, if_pos hbe, List.append_nil]
      · rw [concatA, if_pos hbe]
        show (itemsExpl l).map Prod.fst = _
        rw [hexpl, hdrows]
        rfl
      · intro d v
        constructor
        · rw [concatA, if_pos hbe]
          simp
        · intro c hc
          rw [concatA, if_pos hbe]
          show getCellAux ctxCols (ctxCols.map fun c => getCellAux (derivedDF l).cols d c) c = _
          rw [getCellAux_map, if_pos hc]
    · refine ⟨fun d v => (ctxCols.map (fun c => getCellAux (derivedDF l).cols d c)) ++
        itemsDf.cols.map (fun c => List.lookup c (flattenFields (recFieldsOf v))),
        itemsDf.cols, ?_, ?_, ?_⟩
      · rw [concatA, if_neg hbe]
      · rw [concatA, if_neg hbe]
        show List.zipWith _ ((itemsExpl l).map Prod.fst) itemsDf.rows = _
        rw [hrows, List.map_map, zipWith_map_same, itemsExpl_eq l, List.map_flatMap]
        apply flatMap_congr_fun
        intro r
        rw [List.map_map]
        rfl
      · intro d v
        constructor
        · rw [concatA, if_neg hbe]
          simp
        · intro c hc
          rw [concatA, if_neg hbe]
          show getCellAux (ctxCols ++ itemsDf.cols) _ c = _
          rw [getCellAux_append_left _ _ _ _ _ (by simp) hc, getCellAux_map, if_pos hc]

theorem coerce_step (df : DF) (name : String) :
    ∃ T : List Cell → List Cell,
      (if name ∈ df.cols
        then setCol df name (fun r => (to_numeric_cell (getCellAux df.cols r name)).map JVal.float)
        else df).cols = df.cols ∧
      (if name ∈ df.cols
        then setCol df name (fun r => (to_numeric_cell (getCellAux df.cols r name)).map JVal.float)
        else df).rows = df.rows.map T ∧
      ∀ r, r.length = df.cols.length →
        (T r).length = df.cols.length ∧
        ∀ c, c ≠ name → getCellAux df.cols (T r) c = getCellAux df.cols r c := by
  by_cases hm : name ∈ df.cols
  · refine ⟨setCellRow df name
      (fun r => (to_numeric_cell (getCellAux df.cols r name)).map JVal.float), ?_, ?_, ?_⟩
    · rw [if_pos hm, setCol_cols, if_pos hm]
    · rw [if_pos hm, setCol_rows]
    · intro r hr
      constructor
      · have h2 := setCellRow_length df name
          (fun r => (to_numeric_cell (getCellAux df.cols r name)).map JVal.float) r hr
        rw [setCol_cols, if_pos hm] at h2
        exact h2
      · intro c hc
        have h2 := getCell_setCellRow_other df name
          (fun r => (to_numeric_cell (getCellAux df.cols r name)).map JVal.float) r c hc hr
        rw [setCol_cols, if_pos hm] at h2
        exact h2
  · refine ⟨id, by rw [if_neg hm], by rw [if_neg hm, List.map_id], ?_⟩
    intro r hr
    exact ⟨hr, fun c _ => rfl⟩

theorem coerceItems_spec (t : DF) :
    ∃ (T : List Cell → List Cell) (added : List String),
      (coerceItems t).cols = t.cols ++ added ∧
      (coerceItems t).rows = t.rows.map T ∧
      (∀ a ∈ added, a = "line_total") ∧
      ∀ r, r.length = t.cols.length →
        (T r).length = (coerceItems t).cols.length ∧
        ∀ c, c ≠ "quantity" → c ≠ "unit_price" → c ≠ "line_total" →
          getCellAux (coerceItems t).cols (T r) c = getCellAux t.cols r c := by
  by_cases hg : t.rows.isEmpty ∨ t.cols.isEmpty
  · refine ⟨id, [], ?_, ?_, ?_, ?_⟩
    · rw [coerceItems, if_pos hg, List.append_nil]
    · rw [coerceItems, if_pos hg, List.map_id]
    · intro a ha
      exact absurd ha (List.not_mem_nil a)
    · intro r hr
      rw [coerceItems, if_pos hg]
      exact ⟨hr, fun c _ _ _ => rfl⟩
  · obtain ⟨T1, hc1, hr1, hp1⟩ := coerce_step t "quantity"
    obtain ⟨T2, hc2, hr2, hp2⟩ := coerce_step
      (if "quantity" ∈ t.cols
        then setCol t "quantity"
          (fun r => (to_numeric_cell (getCellAux t.cols r "quantity")).map JVal.float)
        else t) "unit_price"
    set t1 : DF := if "quantity" ∈ t.cols
      then setCol t "quantity"
        (fun r => (to_numeric_cell (getCellAux t.cols r "quantity")).map JVal.float)
      else t with ht1
    set t2 : DF := if "unit_price" ∈ t1.cols
      then setCol t1 "unit_price"
        (fun r => (to_numeric_cell (getCellAux t1.cols r "unit_price")).map JVal.float)
      else t1 with ht2
    have hcoe : coerceItems t =
        (if "quantity" ∈ t2.cols ∧ "unit_price" ∈ t2.cols then
          setCol t2 "line_total" (fun r =>
            match getCellAux t2.cols r "quantity", getCellAux t2.cols r "unit_price" with
            | some (.float q), some (.float p) => some (.float (round2f (fl (qmul q p))))
            | _, _ => none)
        else t2) := by
      rw [coerceItems, if_neg hg]
    have hct2 : t2.cols = t.cols := hc2.trans hc1
    have hrt2 : t2.rows = t.rows.map (fun r => T2 (T1 r)) := by
      rw [hr2, hr1, List.map_map]
      rfl
    have hpt2 : ∀ r, r.length = t.cols.length →
        (T2 (T1 r)).length = t.cols.length ∧
        ∀ c, c ≠ "quantity" → c ≠ "unit_price" →
          getCellAux t.cols (T2 (T1 r)) c = getCellAux t.cols r c := by
      intro r hr
      have h1 := hp1 r hr
      have h2 := hp2 (T1 r) (by rw [hc1]; exact h1.1)
      rw [hc1] at h2
      refine ⟨h2.1, fun c hcq hcu => ?_⟩
      rw [h2.2 c hcu, h1.2 c hcq]
    by_cases hql : "quantity" ∈ t2.cols ∧ "unit_price" ∈ t2.cols
    · rw [hcoe, if_pos hql]
      by_cases hlt : "line_total" ∈ t2.cols
      · refine ⟨fun r => setCellRow t2 "line_total" (fun r2 =>
          match getCellAux t2.cols r2 "quantity", getCellAux t2.cols r2 "unit_price" with
          | some (.float q), some (.float p) => some (.float (round2f (fl (qmul q p))))
          | _, _ => none) (T2 (T1 r)), [], ?_, ?_, ?_, ?_⟩
        · rw [setCol_cols, if_pos hlt, hct2, List.append_nil]
        · rw [setCol_rows, hrt2, List.map_map]
          rfl
        · intro a ha
          exact absurd ha (List.not_mem_nil a)
        · intro r hr
          have hmain := hpt2 r hr
          constructor
          · rw [setCol_cols, if_pos hlt, hct2]
            have h3 := setCellRow_length t2 "line_total" (fun r2 =>
              match getCellAux t2.cols r2 "quantity", getCellAux t2.cols r2 "unit_price" with
              | some (.float q), some (.float p) => some (.float (round2f (fl (qmul q p))))
              | _, _ => none) (T2 (T1 r)) (by rw [hct2]; exact hmain.1)
            rw [setCol_cols, if_pos hlt, hct2] at h3
            exact h3
          · intro c hcq hcu hclt
            have h3 := getCell_setCellRow_other t2 "line_total" (fun r2 =>
              match getCellAux t2.cols r2 "quantity", getCellAux t2.cols r2 "unit_price" with
              | some (.float q), some (.float p) => some (.float (round2f (fl (qmul q p))))
              | _, _ => none) (T2 (T1 r)) c hclt (by rw [hct2]; exact hmain.1)
            rw [setCol_cols, if_pos hlt, hct2] at h3
            rw [setCol_cols, if_pos hlt, hct2, h3]
            exact hmain.2 c hcq hcu
      · refine ⟨fun r => setCellRow t2 "line_total" (fun r2 =>
          match getCellAux t2.cols r2 "quantity", getCellAux t2.cols r2 "unit_price" with
          | some (.float q), some (.float p) => some (.float (round2f (fl (qmul q p))))
          | _, _ => none) (T2 (T1 r)), ["line_total"], ?_, ?_, ?_, ?_⟩
        · rw [setCol_cols, if_neg hlt, hct2]
        · rw [setCol_rows, hrt2, List.map_map]
          rfl
        · intro a ha
          exact List.mem_singleton.mp ha
        · intro r hr
          have hmain := hpt2 r hr
          constructor
          · rw [setCol_cols, if_neg hlt, hct2]
            have h3 := setCellRow_length t2 "line_total" (fun r2 =>
              match getCellAux t2.cols r2 "quantity", getCellAux t2.cols r2 "unit_price" with
              | some (.float q), some (.float p) => some (.float (round2f (fl (qmul q p))))
              | _, _ => none) (T2 (T1 r)) (by rw [hct2]; exact hmain.1)
            rw [setCol_cols, if_neg hlt, hct2] at h3
            exact h3
          · intro c hcq hcu hclt
            have h3 := getCell_setCellRow_other t2 "line_total" (fun r2 =>
              match getCellAux t2.cols r2 "quantity", getCellAux t2.cols r2 "unit_price" with
              | some (.float q), some (.float p) => some (.float (round2f (fl (qmul q p))))
              | _, _ => none) (T2 (T1 r)) c hclt (by rw [hct2]; exact hmain.1)
            rw [setCol_cols, if_neg hlt] at h3
            rw [setCol_cols, if_neg hlt, h3, hct2]
            exact hmain.2 c hcq hcu
    · rw [hcoe, if_neg hql]
      refine ⟨fun r => T2 (T1 r), [], by rw [hct2, List.append_nil], hrt2,
        fun a ha => absurd ha (List.not_mem_nil a), ?_⟩
      intro r hr
      have hmain := hpt2 r hr
      exact ⟨by rw [hct2]; exact hmain.1, fun c hcq hcu _ => by
        rw [hct2]; exact hmain.2 c hcq hcu⟩

end

theorem factItemsDF_ok_inv (l : List JVal) (fi : DF) (h : factItemsDF l = .ok fi)
    (hin : "items" ∈ (derivedDF l).cols) :
    ∃ fi0, factItemsRawDF l = .ok fi0 ∧ fi = coerceItems fi0 := by
  rw [factItemsDF, if_pos hin] at h
  cases hraw : factItemsRawDF l with
  | error e =>
    rw [hraw] at h
    simp only [Except.map] at h
    exact Except.noConfusion h
  | ok fi0 =>
    rw [hraw] at h
    simp only [Except.map, Except.ok.injEq] at h
    exact ⟨fi0, rfl, h.symm⟩

theorem wf_factItemsRaw (l : List JVal) (fi0 : DF) (h : factItemsRawDF l = .ok fi0) :
    Wf fi0 := by
  obtain ⟨G, icols, hc, hr, hp⟩ := factItemsRaw_spec l fi0 h
  intro r hrr
  rw [hr] at hrr
  rcases List.mem_flatMap.mp hrr with ⟨d, _, hmem⟩
  rcases List.mem_map.mp hmem with ⟨v, _, hve⟩
  rw [← hve]
  exact (hp d v).1

theorem factItems_spec (l : List JVal) (fi : DF) (h : factItemsDF l = .ok fi)
    (hin : "items" ∈ (derivedDF l).cols) :
    ∃ (G : List Cell → Cell → List Cell) (itemcols : List String),
      fi.cols = ctxCols ++ itemcols ∧
      fi.rows = (derivedDF l).rows.flatMap (fun d =>
        (explodeCell (getCellAux (derivedDF l).cols d "items")).map (G d)) ∧
      ∀ d v, (G d v).length = fi.cols.length ∧
        ∀ c, c ∈ ctxCols →
          getCellAux fi.cols (G d v) c = getCellAux (derivedDF l).cols d c := by
  obtain ⟨fi0, hraw, hco⟩ := factItemsDF_ok_inv l fi h hin
  obtain ⟨G0, icols0, hc0, hr0, hp0⟩ := factItemsRaw_spec l fi0 hraw
  obtain ⟨T, added, hcT, hrT, -, hpT⟩ := coerceItems_spec fi0
  refine ⟨fun d v => T (G0 d v), icols0 ++ added, ?_, ?_, ?_⟩
  · rw [hco, hcT, hc0, List.append_assoc]
  · rw [hco, hrT, hr0, List.map_flatMap]
    apply flatMap_congr_fun
    intro r
    rw [List.map_map]
    rfl
  · intro d v
    have hT := hpT (G0 d v) (hp0 d v).1
    constructor
    · rw [hco]
      exact hT.1
    · intro c hc
      have hne : c ≠ "quantity" ∧ c ≠ "unit_price" ∧ c ≠ "line_total" := by
        have hc2 : c = "order_id" ∨ c = "order_timestamp" ∨ c = "order_date" ∨
            c = "order_year" ∨ c = "order_month" := by
          simpa [ctxCols] using hc
        rcases hc2 with rfl | rfl | rfl | rfl | rfl
        · exact ⟨by decide, by decide, by decide⟩
        · exact ⟨by decide, by decide, by decide⟩
        · exact ⟨by decide, by decide, by decide⟩
        · exact ⟨by decide, by decide, by decide⟩
        · exact ⟨by decide, by decide, by decide⟩
      rw [hco, hT.2 c hne.1 hne.2.1 hne.2.2, (hp0 d v).2 c hc]

theorem coerceItems_eq (t : DF) (hg : ¬(t.rows.isEmpty ∨ t.cols.isEmpty))
    (hq : "quantity" ∈ t.cols) (hp : "unit_price" ∈ t.cols) :
    coerceItems t =
      setCol (setCol (setCol t "quantity"
        (fun r2 => (to_numeric_cell (getCellAux t.cols r2 "quantity")).map JVal.float))
        "unit_price"
        (fun r2 => (to_numeric_cell (getCellAux (setCol t "quantity"
          (fun r3 => (to_numeric_cell (getCellAux t.cols r3 "quantity")).map JVal.float)).cols
          r2 "unit_price")).map JVal.float))
        "line_total"
        (fun r2 =>
          match getCellAux (setCol (setCol t "quantity"
              (fun r3 => (to_numeric_cell (getCellAux t.cols r3 "quantity")).map JVal.float))
              "unit_price"
              (fun r3 => (to_numeric_cell (getCellAux (setCol t "quantity"
                (fun r4 => (to_numeric_cell (getCellAux t.cols r4 "quantity")).map
                  JVal.float)).cols r3 "unit_price")).map JVal.float)).cols r2 "quantity",
            getCellAux (setCol (setCol t "quantity"
              (fun r3 => (to_numeric_cell (getCellAux t.cols r3 "quantity")).map JVal.float))
              "unit_price"
              (fun r3 => (to_numeric_cell (getCellAux (setCol t "quantity"
                (fun r4 => (to_numeric_cell (getCellAux t.cols r4 "quantity")).map
                  JVal.float)).cols r3 "unit_price")).map JVal.float)).cols r2 "unit_price" with
          | some (.float q), some (.float p) => some (.float (round2f (fl (qmul q p))))
          | _, _ => none) := by
  have h1 : "unit_price" ∈ (setCol t "quantity"
      (fun r3 => (to_numeric_cell (getCellAux t.cols r3 "quantity")).map JVal.float)).cols :=
    mem_setCol_cols_of_mem _ _ _ _ hp
  have h2 : "quantity" ∈ (setCol (setCol t "quantity"
      (fun r3 => (to_numeric_cell (getCellAux t.cols r3 "quantity")).map JVal.float))
      "unit_price"
      (fun r3 => (to_numeric_cell (getCellAux (setCol t "quantity"
        (fun r4 => (to_numeric_cell (getCellAux t.cols r4 "quantity")).map JVal.float)).cols
        r3 "unit_price")).map JVal.float)).cols :=
    mem_setCol_cols_of_mem _ _ _ _ (mem_setCol_cols_of_mem _ _ _ _ hq)
  have h3 : "unit_price" ∈ (setCol (setCol t "quantity"
      (fun r3 => (to_numeric_cell (getCellAux t.cols r3 "quantity")).map JVal.float))
      "unit_price"
      (fun r3 => (to_numeric_cell (getCellAux (setCol t "quantity"
        (fun r4 => (to_numeric_cell (getCellAux t.cols r4 "quantity")).map JVal.float)).cols
        r3 "unit_price")).map JVal.float)).cols :=
    mem_setCol_cols_self _ _ _
  simp only [coerceItems, if_neg hg, if_pos hq, if_pos h1, if_pos (And.intro h2 h3)]

theorem triple_setCol_cells (t : DF) (hwf : Wf t)
    (fq fp : List Cell → Cell) (flt : List Cell → Cell)
    (r : List Cell)
    (hr : r ∈ (setCol (setCol (setCol t "quantity" fq) "unit_price" fp) "line_total" flt).rows) :
    ∃ r0 ∈ t.rows,
      getCellAux (setCol (setCol (setCol t "quantity" fq) "unit_price" fp) "line_total" flt).cols
        r "quantity" = fq r0 ∧
      getCellAux (setCol (setCol (setCol t "quantity" fq) "unit_price" fp) "line_total" flt).cols
        r "unit_price" = fp (setCellRow t "quantity" fq r0) ∧
      getCellAux (setCol (setCol (setCol t "quantity" fq) "unit_price" fp) "line_total" flt).cols
        r "line_total"
        = flt (setCellRow (setCol t "quantity" fq) "unit_price" fp
            (setCellRow t "quantity" fq r0)) ∧
      getCellAux (setCol (setCol t "quantity" fq) "unit_price" fp).cols
        (setCellRow (setCol t "quantity" fq) "unit_price" fp (setCellRow t "quantity" fq r0))
        "quantity" = fq r0 ∧
      getCellAux (setCol (setCol t "quantity" fq) "unit_price" fp).cols
        (setCellRow (setCol t "quantity" fq) "unit_price" fp (setCellRow t "quantity" fq r0))
        "unit_price" = fp (setCellRow t "quantity" fq r0) := by
  rw [setCol_rows] at hr
  rcases List.mem_map.mp hr with ⟨r2, hr2, hre⟩
  rw [setCol_rows] at hr2
  rcases List.mem_map.mp hr2 with ⟨r1, hr1, hr1e⟩
  rw [setCol_rows] at hr1
  rcases List.mem_map.mp hr1 with ⟨r0, hr0, hr0e⟩
  have len0 : r0.length = t.cols.length := hwf r0 hr0
  have len1 : (setCellRow t "quantity" fq r0).length = (setCol t "quantity" fq).cols.length :=
    setCellRow_length _ _ _ _ len0
  have len2 : (setCellRow (setCol t "quantity" fq) "unit_price" fp
      (setCellRow t "quantity" fq r0)).length
      = (setCol (setCol t "quantity" fq) "unit_price" fp).cols.length :=
    setCellRow_length _ _ _ _ len1
  rw [← hr0e] at hr1e
  rw [← hr1e] at hre
  refine ⟨r0, hr0, ?_, ?_, ?_, ?_, ?_⟩
  · rw [← hre, getCell_setCellRow_other _ _ _ _ _ (by decide) len2,
      getCell_setCellRow_other _ _ _ _ _ (by decide) len1,
      getCell_setCellRow_self _ _ _ _ len0]
  · rw [← hre, getCell_setCellRow_other _ _ _ _ _ (by decide) len2,
      getCell_setCellRow_self _ _ _ _ len1]
  · rw [← hre, getCell_setCellRow_self _ _ _ _ len2]
  · rw [getCell_setCellRow_other _ _ _ _ _ (by decide) len1,
      getCell_setCellRow_self _ _ _ _ len0]
  · rw [getCell_setCellRow_self _ _ _ _ len1]

theorem coerceItems_cells (t : DF) (hwf : Wf t)
    (hq : "quantity" ∈ t.cols) (hp : "unit_price" ∈ t.cols) :
    ∀ r ∈ (coerceItems t).rows,
      getCellAux (coerceItems t).cols r "line_total"
        = (match getCellAux (coerceItems t).cols r "quantity",
                 getCellAux (coerceItems t).cols r "unit_price" with
           | some (.float q), some (.float p) => some (.float (round2f (fl (qmul q p))))
           | _, _ => none) ∧
      ((getCellAux (coerceItems t).cols r "quantity" = none ∨
        ∃ q, getCellAux (coerceItems t).cols r "quantity" = some (.float q)) ∧
       (getCellAux (coerceItems t).cols r "unit_price" = none ∨
        ∃ p, getCellAux (coerceItems t).cols r "unit_price" = some (.float p))) := by
  intro r hr
  by_cases hg : t.rows.isEmpty ∨ t.cols.isEmpty
  · rw [coerceItems, if_pos hg] at hr
    rcases hg with hg | hg
    · rw [List.isEmpty_iff.mp hg] at hr
      simp at hr
    · exact absurd hq (by rw [List.isEmpty_iff.mp hg]; simp)
  · rw [coerceItems_eq t hg hq hp] at hr ⊢
    obtain ⟨r0, _, hc1, hc2, hc3, hc4, hc5⟩ := triple_setCol_cells t hwf _ _ _ r hr
    refine ⟨?_, ?_, ?_⟩
    · rw [hc3, hc1, hc2]
      beta_reduce
      rw [hc4, hc5]
    · rw [hc1]
      cases to_numeric_cell (getCellAux t.cols r0 "quantity") with
      | none => exact Or.inl rfl
      | some q => exact Or.inr ⟨q, rfl⟩
    · rw [hc2]
      cases to_numeric_cell (getCellAux (setCol t "quantity" (fun r3 =>
          (to_numeric_cell (getCellAux t.cols r3 "quantity")).map JVal.float)).cols
          (setCellRow t "quantity" (fun r3 =>
          (to_numeric_cell (getCellAux t.cols r3 "quantity")).map JVal.float) r0)
          "unit_price") with
      | none => exact Or.inl rfl
      | some p => exact Or.inr ⟨p, rfl⟩

/-! ## Inversion of the handler -/

theorem handler_run_inv (runId : String) (jl : JList) (out : RunOutput)
    (h : lambda_handler runId (.arr jl) = .ok (.run out)) :
    jl.toList ≠ [] ∧
    "order_id" ∈ (rawDF jl.toList).cols ∧
    "order_timestamp" ∈ (rawDF jl.toList).cols ∧
    factOrdersDF jl.toList = .ok out.factOrders ∧
    factItemsDF jl.toList = .ok out.factOrderItems ∧
    out.writes = (dedupFirst (out.factOrders.rows.map
      (fun r => partKeyOf out.factOrders.cols r))).flatMap
      (writesFor runId out.factOrders out.factOrderItems) ∧
    out.rowsFactOrders = out.factOrders.rows.length ∧
    out.rowsFactOrderItems = (if out.factOrderItems.rows.isEmpty ∨
      out.factOrderItems.cols.isEmpty then 0 else out.factOrderItems.rows.length) := by
  rw [lambda_handler] at h
  by_cases he : jl.toList.isEmpty
  · rw [if_pos he] at h
    simp only [Except.ok.injEq] at h
    exact absurd h (by intro hh; cases hh)
  · rw [if_neg he] at h
    by_cases hreq : "order_id" ∉ (rawDF jl.toList).cols ∨
        "order_timestamp" ∉ (rawDF jl.toList).cols
    · rw [if_pos hreq] at h
      exact Except.noConfusion h
    · rw [if_neg hreq] at h
      push_neg at hreq
      cases hfo : factOrdersDF jl.toList with
      | error e =>
        rw [hfo] at h
        simp only [Bind.bind, Except.bind] at h
        exact Except.noConfusion h
      | ok fo =>
        rw [hfo] at h
        simp only [Bind.bind, Except.bind] at h
        cases hfi : factItemsDF jl.toList with
        | error e =>
          rw [hfi] at h
          simp only at h
          exact Except.noConfusion h
        | ok fi =>
          rw [hfi] at h
          simp only [pure, Except.pure, Except.ok.injEq, HandlerResult.run.injEq] at h
          subst h
          refine ⟨fun hnil => he (by rw [hnil]; rfl), hreq.1, hreq.2, ?_, ?_, rfl, rfl, rfl⟩
          · simpa using hfo
          · simpa using hfi



/-! ## Concrete example orders used by the witnesses -/

/-- A well-formed January order with customer, order_total and two items. -/
def wOrder1 : JVal := jobj [("order_id", .str "o1"),
  ("order_timestamp", .str "2025-01-01T12:00:00Z"),
  ("order_total", .str "12.5"),
  ("customer", jobj [("name", .str "Ada")]),
  ("items", jarr [jobj [("sku", .str "s1"), ("quantity", .int 3), ("unit_price", .str "2.5")],
                  jobj [("sku", .str "s2"), ("quantity", .str "N/A"), ("unit_price", .int 4)]])]

/-- A well-formed February order (millisecond-epoch timestamp). -/
def wOrder2 : JVal := jobj [("order_id", .str "o2"),
  ("order_timestamp", .int 1738368000000),
  ("customer", jobj [("name", .str "Bob")]),
  ("items", jarr [jobj [("sku", .str "s3"), ("quantity", .int 1), ("unit_price", .int 10)]])]

/-- An order whose timestamp parses on no path. -/
def wOrderBad : JVal := jobj [("order_id", .str "o3"),
  ("order_timestamp", .str "not-a-date"),
  ("customer", jobj [("name", .str "Eve")]),
  ("items", jarr [jobj [("sku", .str "s4"), ("quantity", .int 2), ("unit_price", .int 5)]])]

/-- The three orders above as one input batch. -/
def wBatch : JList := JList.ofList [wOrder1, wOrder2, wOrderBad]

/-- First-filled `fillna` reduces away a missing first series. -/
theorem fillna_none {α : Type} (y : Option α) : fillna (none : Option α) y = y := rfl

/-! ## The claims -/

/-- C6: for every non-empty input batch in which the `order_id` column or
the `order_timestamp` column is structurally absent, the invocation fails
fatally with the missing-fields error (the model returns `Except.error`,
so nothing is written); the check is batch-level, before any per-row
processing. -/
theorem claim_C6 (runId : String) (jl : JList)
    (hne : jl.toList ≠ [])
    (hmiss : "order_id" ∉ (rawDF jl.toList).cols ∨
      "order_timestamp" ∉ (rawDF jl.toList).cols) :
    lambda_handler runId (.arr jl)
      = .error "Missing required fields: order_id and/or order_timestamp" := by
  simp only [lambda_handler]
  rw [if_neg (fun hh => hne (List.isEmpty_iff.mp hh)), if_pos hmiss]

/-- Witness for C6 at a concrete one-order batch lacking `order_timestamp`. -/
theorem claim_C6_witness :
    lambda_handler "run1" (.arr (JList.ofList [jobj [("order_id", JVal.str "x")]]))
      = .error "Missing required fields: order_id and/or order_timestamp" :=
  claim_C6 "run1" (JList.ofList [jobj [("order_id", JVal.str "x")]]) (by decide) (by decide)

/-- C4: the claim says an order with `items: []` contributes zero rows to
FactOrderItem while still contributing one row to FactOrder; on the code,
`explode` turns the empty list into a missing value and
`pd.json_normalize` then raises `AttributeError`, so the invocation fails
instead of producing the two tables.  This theorem evaluates the handler
at the failing input. -/
theorem claim_C4 :
    lambda_handler "run1" (.arr (JList.ofList [jobj [("order_id", JVal.str "o5"),
      ("order_timestamp", JVal.str "2025-01-02T00:00:00Z"), ("items", jarr [])]]))
      = .error "AttributeError: object has no attribute items" := by rfl

/-- C5: the normalizer classifies an all-digits rendering as a numeric
epoch, interpreted as milliseconds below `10^15` and as nanoseconds
otherwise; non-digit values go to the general date parser coerced to UTC;
and the ISO string, millisecond epoch and nanosecond epoch of
2025-01-01T12:00:00Z all normalize to the identical UTC instant. -/
theorem claim_C5 :
    (∀ (v : Cell) (s : String), pdAstypeString v = some s → isAllDigits s = true →
      safe_to_datetime_cell v =
        (if (digitsToNat s : ℤ) < 10 ^ 15
         then epochNs ((digitsToNat s : ℤ) * 1000000)
         else epochNs (digitsToNat s : ℤ))) ∧
    (∀ (v : Cell) (s : String), pdAstypeString v = some s → isAllDigits s = false →
      safe_to_datetime_cell v = parseDateUtc s) ∧
    safe_to_datetime_cell (some (.str "2025-01-01T12:00:00Z")) = some 1735732800000000000 ∧
    safe_to_datetime_cell (some (.int 1735732800000)) = some 1735732800000000000 ∧
    safe_to_datetime_cell (some (.int 1735732800000000000)) = some 1735732800000000000 := by
  refine ⟨?_, ?_, by decide, by decide, by decide⟩
  · intro v s hv hd
    have hnum : is_num_cell v = true := by
      simp only [is_num_cell, hv]
      exact hd
    have hnumv : num_cell v = some (digitsToNat s) := by
      rw [num_cell, if_pos hnum, hv]
      rfl
    rw [safe_to_datetime_cell, dt_str_cell, if_pos hnum, fillna_none, dt_num_cell,
      dt_ms_cell, dt_ns_cell, hnumv, Option.some_bind, Option.some_bind]
    by_cases hlt : (digitsToNat s : ℤ) < 10 ^ 15
    · rw [if_pos hlt, if_pos hlt, if_pos hlt]
      cases epochNs ((digitsToNat s : ℤ) * 1000000)
      · rfl
      · rfl
    · rw [if_neg hlt, if_neg hlt, if_neg hlt]
      cases epochNs (digitsToNat s : ℤ)
      · rfl
      · rfl
  · intro v s hv hd
    have hnum : is_num_cell v = false := by
      simp only [is_num_cell, hv]
      exact hd
    have hnumf : ¬ is_num_cell v = true := by
      rw [hnum]
      exact Bool.false_ne_true
    rw [safe_to_datetime_cell, dt_str_cell, if_neg hnumf, hv, Option.some_bind,
      dt_num_cell, dt_ms_cell, dt_ns_cell, num_cell, if_neg hnumf]
    cases parseDateUtc s
    · rfl
    · rfl

/-- Witness for C5: the classification branch applied to the concrete
millisecond epoch. -/
theorem claim_C5_witness :
    safe_to_datetime_cell (some (JVal.int 1735732800000)) =
      (if ((digitsToNat "1735732800000" : ℤ) < 10 ^ 15)
       then epochNs ((digitsToNat "1735732800000" : ℤ) * 1000000)
       else epochNs (digitsToNat "1735732800000" : ℤ)) :=
  claim_C5.1 (some (JVal.int 1735732800000)) "1735732800000" (by decide) (by decide)

/-- A partition column never survives `dropCols _ PARTITION_COLS`. -/
theorem dropCols_part_not_mem (df : DF) (c : String) (hc : c ∈ PARTITION_COLS) :
    c ∉ (dropCols df PARTITION_COLS).cols := by
  intro hmem
  rw [dropCols] at hmem
  simp only [List.mem_filter, decide_eq_true_eq] at hmem
  exact hmem.2 hc

/-- Every file emitted by one partition-loop iteration has the partition
columns dropped and carries the Hive-style key of its dataset. -/
theorem writesFor_mem (runId : String) (fo fi : DF) (p : Cell × Cell) (w : WriteOp)
    (hw : w ∈ writesFor runId fo fi p) :
    ("order_year" ∉ w.df.cols ∧ "order_month" ∉ w.df.cols) ∧
    (w.dataset = Dataset.factOrders ∧
       w.key = ordersKeyStr (cellInt p.1) (cellInt p.2) runId ∨
     w.dataset = Dataset.factOrderItems ∧
       w.key = itemsKeyStr (cellInt p.1) (cellInt p.2) runId) := by
  simp only [writesFor, List.mem_append] at hw
  rcases hw with hw | hw
  · split at hw
    · exact absurd hw (List.not_mem_nil w)
    · rw [List.mem_singleton] at hw
      subst hw
      exact ⟨⟨dropCols_part_not_mem _ _ (by decide),
        dropCols_part_not_mem _ _ (by decide)⟩, Or.inl ⟨rfl, rfl⟩⟩
  · split at hw
    all_goals split at hw
    · exact absurd hw (List.not_mem_nil w)
    · rw [List.mem_singleton] at hw
      subst hw
      exact ⟨⟨dropCols_part_not_mem _ _ (by decide),
        dropCols_part_not_mem _ _ (by decide)⟩, Or.inr ⟨rfl, rfl⟩⟩
    · exact absurd hw (List.not_mem_nil w)
    · rw [List.mem_singleton] at hw
      subst hw
      exact ⟨⟨dropCols_part_not_mem _ _ (by decide),
        dropCols_part_not_mem _ _ (by decide)⟩, Or.inr ⟨rfl, rfl⟩⟩

/-- C1: on every invocation that writes output files, no written frame
carries a partition column (`order_year`, `order_month`) in its schema,
for either dataset, and each written file's S3 key is the Hive-style
`order_year=y/order_month=m` path of its dataset — the partition key
lives only in the storage path. -/
theorem claim_C1 (runId : String) (jl : JList) (out : RunOutput)
    (h : lambda_handler runId (.arr jl) = .ok (.run out)) :
    ∀ w ∈ out.writes,
      ("order_year" ∉ w.df.cols ∧ "order_month" ∉ w.df.cols) ∧
      ∃ y m : ℤ,
        (w.dataset = Dataset.factOrders ∧ w.key = ordersKeyStr y m runId) ∨
        (w.dataset = Dataset.factOrderItems ∧ w.key = itemsKeyStr y m runId) := by
  intro w hw
  obtain ⟨-, -, -, -, -, hwr, -, -⟩ := handler_run_inv runId jl out h
  rw [hwr, List.mem_flatMap] at hw
  obtain ⟨p, -, hwp⟩ := hw
  obtain ⟨hcols, hds⟩ := writesFor_mem runId _ _ p w hwp
  exact ⟨hcols, cellInt p.1, cellInt p.2, hds⟩

/-- Default write used to select concrete writes in witnesses. -/
def wDefault : WriteOp := ⟨Dataset.factOrders, "", emptyDF⟩

/-- The write list of the concrete batch, exposed as a cons cell. -/
theorem wBatch_writes_cons : (outOf (lambda_handler "run1" (.arr wBatch))).writes
    = ((outOf (lambda_handler "run1" (.arr wBatch))).writes.getD 0 wDefault)
      :: ((outOf (lambda_handler "run1" (.arr wBatch))).writes.drop 1) := rfl

/-- The first write of the concrete batch is a member of its write list. -/
theorem wBatch_writes_head_mem :
    (outOf (lambda_handler "run1" (.arr wBatch))).writes.getD 0 wDefault
    ∈ (outOf (lambda_handler "run1" (.arr wBatch))).writes := by
  nth_rewrite 2 [wBatch_writes_cons]
  exact List.mem_cons_self _ _

/-- Witness for C1: the first file written for the concrete batch. -/
theorem claim_C1_witness :
    ("order_year" ∉ (((outOf (lambda_handler "run1" (.arr wBatch))).writes.getD 0
        wDefault).df.cols) ∧
     "order_month" ∉ (((outOf (lambda_handler "run1" (.arr wBatch))).writes.getD 0
        wDefault).df.cols)) ∧
    ∃ y m : ℤ,
      (((outOf (lambda_handler "run1" (.arr wBatch))).writes.getD 0
          wDefault).dataset = Dataset.factOrders ∧
        ((outOf (lambda_handler "run1" (.arr wBatch))).writes.getD 0
          wDefault).key = ordersKeyStr y m "run1") ∨
      (((outOf (lambda_handler "run1" (.arr wBatch))).writes.getD 0
          wDefault).dataset = Dataset.factOrderItems ∧
        ((outOf (lambda_handler "run1" (.arr wBatch))).writes.getD 0
          wDefault).key = itemsKeyStr y m "run1") :=
  claim_C1 "run1" wBatch (outOf (lambda_handler "run1" (.arr wBatch))) rfl _
    wBatch_writes_head_mem

/-- C2: in every FactOrderItem table carrying `quantity` and `unit_price`
columns, a row whose coerced `quantity` and `unit_price` are both numeric
gets `line_total` equal to their float64 product rounded to 2 decimal
places in float64 (`round2f (fl (qmul q p))`, numpy semantics); a row where
either is missing gets no `line_total` value, and no error is raised (the
invocation succeeded).  The final conjunct settles the claim at its
example: for quantity `3` and unit_price `"2.005"` the computed
`line_total` is exactly the binary64 value that `6.02` denotes — the
float64 product times 100 lands exactly on `601.5` and numpy's tie-to-even
`rint` rounds it up, so the claimed `6.01` is off by one cent. -/
theorem claim_C2 (runId : String) (jl : JList) (out : RunOutput)
    (h : lambda_handler runId (.arr jl) = .ok (.run out))
    (hq : "quantity" ∈ out.factOrderItems.cols)
    (hp : "unit_price" ∈ out.factOrderItems.cols) :
    (∀ r ∈ out.factOrderItems.rows,
      (∀ q p : ℚ,
        getCellAux out.factOrderItems.cols r "quantity" = some (.float q) →
        getCellAux out.factOrderItems.cols r "unit_price" = some (.float p) →
        getCellAux out.factOrderItems.cols r "line_total"
          = some (.float (round2f (fl (qmul q p))))) ∧
      ((getCellAux out.factOrderItems.cols r "quantity" = none ∨
        getCellAux out.factOrderItems.cols r "unit_price" = none) →
        getCellAux out.factOrderItems.cols r "line_total" = none)) ∧
    round2f (fl (qmul ((to_numeric_cell (some (.int 3))).getD 0)
        ((to_numeric_cell (some (.str "2.005"))).getD 0)))
      = (to_numeric_cell (some (.str "6.02"))).getD 0 := by
  refine ⟨?_, by decide⟩
  intro r hr
  obtain ⟨-, -, -, -, hfi, -, -, -⟩ := handler_run_inv runId jl out h
  by_cases hin : "items" ∈ (derivedDF jl.toList).cols
  · obtain ⟨fi0, hraw, hco⟩ := factItemsDF_ok_inv _ _ hfi hin
    obtain ⟨T, added, hcT, hrT, hadd, hpT⟩ := coerceItems_spec fi0
    have hq0 : "quantity" ∈ fi0.cols := by
      rw [hco, hcT] at hq
      rcases List.mem_append.mp hq with h1 | h1
      · exact h1
      · exact absurd (hadd _ h1) (by decide)
    have hp0 : "unit_price" ∈ fi0.cols := by
      rw [hco, hcT] at hp
      rcases List.mem_append.mp hp with h1 | h1
      · exact h1
      · exact absurd (hadd _ h1) (by decide)
    rw [hco] at hr ⊢
    obtain ⟨hmatch, hqs, hps⟩ :=
      coerceItems_cells fi0 (wf_factItemsRaw _ _ hraw) hq0 hp0 r hr
    constructor
    · intro q p hq1 hp1
      rw [hmatch, hq1, hp1]
    · intro hcase
      rcases hcase with hc0 | hc0
      · rcases hps with hnone | ⟨p, hp1⟩
        · rw [hmatch, hc0, hnone]
        · rw [hmatch, hc0, hp1]
      · rcases hqs with hnone | ⟨q, hq1⟩
        · rw [hmatch, hnone, hc0]
        · rw [hmatch, hq1, hc0]
  · rw [factItemsDF, if_neg hin] at hfi
    simp only [pure, Except.pure, Except.ok.injEq] at hfi
    rw [← hfi] at hr
    exact absurd hr (List.not_mem_nil r)

/-- The FactOrderItem columns of the concrete batch. -/
theorem wBatch_items_cols :
    (outOf (lambda_handler "run1" (.arr wBatch))).factOrderItems.cols
    = ["order_id", "order_timestamp", "order_date", "order_year", "order_month",
       "sku", "quantity", "unit_price", "line_total"] := rfl

/-- The FactOrderItem rows of the concrete batch, exposed as cons cells. -/
theorem wBatch_items_rows_cons :
    (outOf (lambda_handler "run1" (.arr wBatch))).factOrderItems.rows
    = ((outOf (lambda_handler "run1" (.arr wBatch))).factOrderItems.rows.getD 0 [])
      :: ((outOf (lambda_handler "run1" (.arr wBatch))).factOrderItems.rows.getD 1 [])
      :: ((outOf (lambda_handler "run1" (.arr wBatch))).factOrderItems.rows.getD 2 [])
      :: ((outOf (lambda_handler "run1" (.arr wBatch))).factOrderItems.rows.drop 3) := rfl

/-- The third FactOrderItem row of the concrete batch is a member. -/
theorem wBatch_items_row2_mem :
    (outOf (lambda_handler "run1" (.arr wBatch))).factOrderItems.rows.getD 2 []
    ∈ (outOf (lambda_handler "run1" (.arr wBatch))).factOrderItems.rows := by
  nth_rewrite 2 [wBatch_items_rows_cons]
  exact List.mem_cons_of_mem _ (List.mem_cons_of_mem _ (List.mem_cons_self _ _))

/-- Witness for C2: the third item row of the concrete batch has
`quantity = 1`, `unit_price = 10` and hence the float64-rounded
`line_total` of their product. -/
theorem claim_C2_witness :
    getCellAux (outOf (lambda_handler "run1" (.arr wBatch))).factOrderItems.cols
      ((outOf (lambda_handler "run1" (.arr wBatch))).factOrderItems.rows.getD 2 [])
      "line_total" = some (.float (round2f (fl (qmul (1 : ℚ) (10 : ℚ))))) :=
  (((claim_C2 "run1" wBatch (outOf (lambda_handler "run1" (.arr wBatch))) rfl
    (by rw [wBatch_items_cols]; decide) (by rw [wBatch_items_cols]; decide)).1
    _ wBatch_items_row2_mem).1) 1 10 rfl rfl

/-- C2 counterexample to the original example: at quantity `3`,
unit_price `"2.005"` the program's float64 pipeline (coerce, multiply,
numpy round to 2 decimals) yields exactly the binary64 value of `6.02`,
which is a different value from the binary64 of the claimed `6.01`. -/
theorem claim_C2_counterexample :
    round2f (fl (qmul ((to_numeric_cell (some (JVal.int 3))).getD 0)
        ((to_numeric_cell (some (JVal.str "2.005"))).getD 0)))
      = (to_numeric_cell (some (JVal.str "6.02"))).getD 0 ∧
    (to_numeric_cell (some (JVal.str "6.02"))).getD 0
      ≠ (to_numeric_cell (some (JVal.str "6.01"))).getD 0 :=
  ⟨by decide, by decide⟩

/-- C3: an order whose `order_timestamp` survives no parsing path raises
nothing (the invocation at hand succeeded): it is filtered out
(`keepOrder` is false for it) and both output tables are generated purely
from the orders that passed the timestamp filter — one FactOrder row per
survivor and item rows only for survivors — so the unparseable order is
excluded from FactOrder and contributes no FactOrderItem rows while the
other orders are processed normally. -/
theorem claim_C3 (runId : String) (jl : JList) (out : RunOutput) (bad : JVal)
    (h : lambda_handler runId (.arr jl) = .ok (.run out))
    (hmem : bad ∈ jl.toList)
    (hfail : safe_to_datetime_cell (ordTs bad) = none) :
    keepOrder bad = false ∧
    (∃ F : JVal → List Cell,
      out.factOrders.rows = (jl.toList.filter keepOrder).map F) ∧
    (∃ G : JVal → List (List Cell),
      out.factOrderItems.rows = (jl.toList.filter keepOrder).flatMap G) := by
  obtain ⟨-, -, hts, hfo, hfi, -, -, -⟩ := handler_run_inv runId jl out h
  refine ⟨by rw [keepOrder, hfail]; rfl, ?_, ?_⟩
  · obtain ⟨F, tail, -, hrows, -⟩ := factOrders_spec _ _ hfo
    refine ⟨fun o => F (derivRow jl.toList (survRow jl.toList o)), ?_⟩
    rw [hrows, derivedDF_rows_map, survivors_rows_map _ hts, List.map_map, List.map_map]
    rfl
  · by_cases hin : "items" ∈ (derivedDF jl.toList).cols
    · obtain ⟨G, icols, -, hrows, -⟩ := factItems_spec _ _ hfi hin
      refine ⟨fun o => (explodeCell (getCellAux (derivedDF jl.toList).cols
        (derivRow jl.toList (survRow jl.toList o)) "items")).map
        (G (derivRow jl.toList (survRow jl.toList o))), ?_⟩
      rw [hrows, derivedDF_rows_map, survivors_rows_map _ hts, List.map_map,
        List.flatMap_map]
      rfl
    · rw [factItemsDF, if_neg hin] at hfi
      simp only [pure, Except.pure, Except.ok.injEq] at hfi
      refine ⟨fun o => [], ?_⟩
      rw [← hfi]
      simp [emptyDF]

/-- Witness for C3 at the concrete batch: `wOrderBad` has an unparseable
timestamp, is dropped by the filter, and both tables are generated from
the surviving orders only. -/
theorem claim_C3_witness :
    keepOrder wOrderBad = false ∧
    (∃ F : JVal → List Cell,
      (outOf (lambda_handler "run1" (.arr wBatch))).factOrders.rows
        = (wBatch.toList.filter keepOrder).map F) ∧
    (∃ G : JVal → List (List Cell),
      (outOf (lambda_handler "run1" (.arr wBatch))).factOrderItems.rows
        = (wBatch.toList.filter keepOrder).flatMap G) :=
  claim_C3 "run1" wBatch (outOf (lambda_handler "run1" (.arr wBatch))) wOrderBad rfl
    (by decide) (by decide)

/-- C9: every FactOrderItem row carries the order context of some
FactOrder row — its `order_id`, `order_timestamp`, `order_date`,
`order_year` and `order_month` cells all coincide with those of a row
present in FactOrder, because item rows are derived only from orders that
survived timestamp normalization. -/
theorem claim_C9 (runId : String) (jl : JList) (out : RunOutput)
    (h : lambda_handler runId (.arr jl) = .ok (.run out)) :
    ∀ r ∈ out.factOrderItems.rows, ∃ r2 ∈ out.factOrders.rows,
      ∀ c ∈ ctxCols,
        getCellAux out.factOrderItems.cols r c
          = getCellAux out.factOrders.cols r2 c := by
  intro r hr
  obtain ⟨-, hid, hts, hfo, hfi, -, -, -⟩ := handler_run_inv runId jl out h
  by_cases hin : "items" ∈ (derivedDF jl.toList).cols
  · obtain ⟨G, icols, -, hgrows, hgp⟩ := factItems_spec _ _ hfi hin
    obtain ⟨F, tail, -, hfrows, hfp⟩ := factOrders_spec _ _ hfo
    rw [hgrows] at hr
    rcases List.mem_flatMap.mp hr with ⟨d, hd, hrm⟩
    rcases List.mem_map.mp hrm with ⟨v, -, hre⟩
    refine ⟨F d, by rw [hfrows]; exact List.mem_map_of_mem _ hd, ?_⟩
    intro c hc
    have hc5 : c = "order_id" ∨ c = "order_timestamp" ∨ c = "order_date" ∨
        c = "order_year" ∨ c = "order_month" := by simpa [ctxCols] using hc
    have hder : c ∈ (derivedDF jl.toList).cols := by
      rw [derivedDF_cols_iff]
      rcases hc5 with rfl | rfl | rfl | rfl | rfl
      · exact Or.inl (by rw [parsedDF_def, mem_setCol_cols_iff]; exact Or.inl hid)
      · exact Or.inl (by rw [parsedDF_def, mem_setCol_cols_iff]; exact Or.inr rfl)
      · exact Or.inr (Or.inl rfl)
      · exact Or.inr (Or.inr (Or.inl rfl))
      · exact Or.inr (Or.inr (Or.inr rfl))
    have hbase : c ∈ baseColsOf (derivedDF jl.toList) := by
      rw [baseColsOf, List.mem_filter]
      refine ⟨hder, ?_⟩
      rcases hc5 with rfl | rfl | rfl | rfl | rfl
      · decide
      · decide
      · decide
      · decide
      · decide
    have hcot : c ≠ "order_total" := by
      rcases hc5 with rfl | rfl | rfl | rfl | rfl
      · decide
      · decide
      · decide
      · decide
      · decide
    rw [← hre, (hgp d v).2 c hc, (hfp d).2 c hbase hcot]
  · rw [factItemsDF, if_neg hin] at hfi
    simp only [pure, Except.pure, Except.ok.injEq] at hfi
    rw [← hfi] at hr
    exact absurd hr (List.not_mem_nil r)

/-- Witness for C9: the third item row of the concrete batch carries the
context of some FactOrder row. -/
theorem claim_C9_witness :
    ∃ r2 ∈ (outOf (lambda_handler "run1" (.arr wBatch))).factOrders.rows,
      ∀ c ∈ ctxCols,
        getCellAux (outOf (lambda_handler "run1" (.arr wBatch))).factOrderItems.cols
          ((outOf (lambda_handler "run1" (.arr wBatch))).factOrderItems.rows.getD 2 []) c
          = getCellAux (outOf (lambda_handler "run1" (.arr wBatch))).factOrders.cols r2 c :=
  claim_C9 "run1" wBatch (outOf (lambda_handler "run1" (.arr wBatch))) rfl _
    wBatch_items_row2_mem

/-- A nested-field expansion over a frame with no rows is the empty frame
and never errors. -/
theorem nestedBlock_ok_of_no_rows (d : DF) (hr : d.rows = []) (field pfx : String) :
    nestedBlock d field pfx = .ok emptyDF := by
  rw [nestedBlock]
  split
  · rw [show colVals d field = [] from by rw [colVals, hr]; rfl]
    rfl
  · rfl

/-- FACT_ORDERS of a batch whose derived frame has no rows: defined, with
no rows. -/
theorem factOrdersDF_of_no_rows (l : List JVal) (hr : (derivedDF l).rows = []) :
    ∃ fo, factOrdersDF l = .ok fo ∧ fo.rows = [] := by
  have hbase : (selectCols (derivedDF l) (baseColsOf (derivedDF l))).rows = [] := by
    rw [selectCols, hr]
    rfl
  rw [factOrdersDF, nestedBlock_ok_of_no_rows _ hr, nestedBlock_ok_of_no_rows _ hr]
  simp only [Bind.bind, Except.bind, pure, Except.pure]
  refine ⟨_, rfl, ?_⟩
  have hfo0 : concatA (concatA (selectCols (derivedDF l) (baseColsOf (derivedDF l)))
      emptyDF) emptyDF = selectCols (derivedDF l) (baseColsOf (derivedDF l)) := rfl
  split
  · rw [setCol_rows, hfo0, hbase]
    rfl
  · rw [hfo0]
    exact hbase

/-- FACT_ORDER_ITEMS of a batch whose derived frame has no rows: defined,
with no rows. -/
theorem factItemsDF_of_no_rows (l : List JVal) (hr : (derivedDF l).rows = []) :
    ∃ fi, factItemsDF l = .ok fi ∧ fi.rows = [] := by
  by_cases hin : "items" ∈ (derivedDF l).cols
  · have hexpl : itemsExpl l = [] := by
      rw [itemsExpl, show (itemsCtxDF l).rows = [] from by rw [itemsCtxDF, selectCols, hr]; rfl]
      rfl
    refine ⟨⟨ctxCols, []⟩, ?_, rfl⟩
    rw [factItemsDF, if_pos hin, factItemsRawDF, hexpl]
    rfl
  · exact ⟨emptyDF, by rw [factItemsDF, if_neg hin]; rfl, rfl⟩

/-- C10: on a non-empty batch that has the required columns but in which
every order timestamp is unparseable, the invocation succeeds, writes no
file for either dataset, and reports row counts of 0 for both datasets. -/
theorem claim_C10 (runId : String) (jl : JList)
    (hne : jl.toList ≠ [])
    (hid : "order_id" ∈ (rawDF jl.toList).cols)
    (hts : "order_timestamp" ∈ (rawDF jl.toList).cols)
    (hfail : ∀ o ∈ jl.toList, safe_to_datetime_cell (ordTs o) = none) :
    ∃ out, lambda_handler runId (.arr jl) = .ok (.run out) ∧
      out.writes = [] ∧ out.rowsFactOrders = 0 ∧ out.rowsFactOrderItems = 0 := by
  have hsurv : (survivorsDF jl.toList).rows = [] := by
    rw [survivors_rows_map _ hts, List.filter_eq_nil_iff.mpr ?_, List.map_nil]
    intro o ho hk
    rw [keepOrder, hfail o ho] at hk
    exact Bool.false_ne_true hk
  have hder : (derivedDF jl.toList).rows = [] := by
    rw [derivedDF_rows_map, hsurv]
    rfl
  obtain ⟨fo, hfo, hfor⟩ := factOrdersDF_of_no_rows _ hder
  obtain ⟨fi, hfi, hfir⟩ := factItemsDF_of_no_rows _ hder
  refine ⟨⟨fo, fi, [], 0, 0⟩, ?_, rfl, rfl, rfl⟩
  simp only [lambda_handler]
  rw [if_neg (fun hh => hne (List.isEmpty_iff.mp hh)),
    if_neg (show ¬("order_id" ∉ (rawDF jl.toList).cols ∨
      "order_timestamp" ∉ (rawDF jl.toList).cols) from by push_neg; exact ⟨hid, hts⟩),
    hfo]
  simp only [Bind.bind, Except.bind]
  rw [hfi]
  simp only [pure, Except.pure]
  rw [if_pos (Or.inl (show fi.rows.isEmpty = true from by rw [hfir]; rfl)), hfor]
  rfl

/-- Witness for C10: the one-order batch holding only the unparseable
order succeeds with no writes and zero row counts. -/
theorem claim_C10_witness :
    ∃ out, lambda_handler "run1" (.arr (JList.ofList [wOrderBad])) = .ok (.run out) ∧
      out.writes = [] ∧ out.rowsFactOrders = 0 ∧ out.rowsFactOrderItems = 0 :=
  claim_C10 "run1" (JList.ofList [wOrderBad]) (by decide) (by decide) (by decide)
    (by decide)

/-- Every column of a nested-field expansion block carries the prefix. -/
theorem nestedBlock_cols_prefixed (d : DF) (field pfx : String) (b : DF)
    (h : nestedBlock d field pfx = .ok b) :
    ∀ c ∈ b.cols, ∃ rest, c = pfx ++ rest := by
  intro c hc
  rw [nestedBlock] at h
  split at h
  · cases hjn : json_normalize (colVals d field) with
    | error e =>
      rw [hjn] at h
      exact Except.noConfusion h
    | ok b0 =>
      rw [hjn] at h
      simp only [Except.map, Except.ok.injEq] at h
      subst h
      simp only [addColPre] at hc
      rcases List.mem_map.mp hc with ⟨c0, -, hce⟩
      exact ⟨c0, hce.symm⟩
  · cases h
    exact absurd hc (List.not_mem_nil c)

/-- Columns of a positional concat come from one of the two blocks. -/
theorem mem_concatA_cols (a b : DF) (c : String) (hc : c ∈ (concatA a b).cols) :
    c ∈ a.cols ∨ c ∈ b.cols := by
  rw [concatA] at hc
  split at hc
  · exact Or.inl hc
  · rcases List.mem_append.mp hc with h | h
    · exact Or.inl h
    · exact Or.inr h

/-- A left block's column survives a positional concat. -/
theorem mem_concatA_cols_left (a b : DF) (c : String) (hc : c ∈ a.cols) :
    c ∈ (concatA a b).cols := by
  rw [concatA]
  split
  · exact hc
  · exact List.mem_append_left _ hc

/-- A right block's column survives a positional concat. -/
theorem mem_concatA_cols_right (a b : DF) (c : String) (hc : c ∈ b.cols) :
    c ∈ (concatA a b).cols := by
  rw [concatA]
  split
  · next hb =>
    rw [List.isEmpty_iff.mp hb.1] at hc
    exact absurd hc (List.not_mem_nil c)
  · exact List.mem_append_right _ hc

/-- The FactOrder columns split into base scalars and the two expansion
blocks, and both blocks' columns all survive into FactOrder. -/
theorem factOrders_cols_decomp (l : List JVal) (fo : DF) (h : factOrdersDF l = .ok fo) :
    ∃ cust pay : DF,
      nestedBlock (derivedDF l) "customer" "customer_" = .ok cust ∧
      nestedBlock (derivedDF l) "payment" "payment_" = .ok pay ∧
      (∀ c ∈ fo.cols, c ∈ baseColsOf (derivedDF l) ∨ c ∈ cust.cols ∨ c ∈ pay.cols) ∧
      (∀ c ∈ cust.cols, c ∈ fo.cols) ∧ (∀ c ∈ pay.cols, c ∈ fo.cols) := by
  rcases factOrdersDF_ok_inv l fo h with ⟨cust, pay, hcust, hpay, hfo⟩
  set FO : DF :=
    concatA (concatA (selectCols (derivedDF l) (baseColsOf (derivedDF l))) cust) pay with hFO
  have hdec : ∀ c, c ∈ FO.cols →
      c ∈ baseColsOf (derivedDF l) ∨ c ∈ cust.cols ∨ c ∈ pay.cols := by
    intro c hc2
    rcases mem_concatA_cols _ _ _ hc2 with h2 | h2
    · rcases mem_concatA_cols _ _ _ h2 with h3 | h3
      · exact Or.inl h3
      · exact Or.inr (Or.inl h3)
    · exact Or.inr (Or.inr h2)
  have hcup : ∀ c, c ∈ cust.cols → c ∈ FO.cols := fun c hc =>
    mem_concatA_cols_left _ _ _ (mem_concatA_cols_right _ _ _ hc)
  have hpup : ∀ c, c ∈ pay.cols → c ∈ FO.cols := fun c hc =>
    mem_concatA_cols_right _ _ _ hc
  by_cases hot : "order_total" ∈ FO.cols
  · simp only [if_pos hot] at hfo
    refine ⟨cust, pay, hcust, hpay, ?_, ?_, ?_⟩
    · intro c hc
      rw [hfo] at hc
      rcases (mem_setCol_cols_iff _ _ _ _).mp hc with hc2 | rfl
      · exact hdec c hc2
      · exact hdec _ hot
    · intro c hc
      rw [hfo]
      exact mem_setCol_cols_of_mem _ _ _ _ (hcup c hc)
    · intro c hc
      rw [hfo]
      exact mem_setCol_cols_of_mem _ _ _ _ (hpup c hc)
  · simp only [if_neg hot] at hfo
    refine ⟨cust, pay, hcust, hpay, ?_, ?_, ?_⟩
    · intro c hc
      rw [hfo] at hc
      exact hdec c hc
    · intro c hc
      rw [hfo]
      exact hcup c hc
    · intro c hc
      rw [hfo]
      exact hpup c hc

/-- Every flattened key of every normalized record appears among the
frame's columns. -/
theorem json_normalize_ok_cols (vals : List Cell) (b : DF) (h : json_normalize vals = .ok b)
    (v : Cell) (hv : v ∈ vals) :
    ∀ kv ∈ flattenFields (recFieldsOf v), kv.1 ∈ b.cols := by
  intro kv hkv
  rw [json_normalize] at h
  split at h
  · next he =>
    rw [List.isEmpty_iff.mp he] at hv
    exact absurd hv (List.not_mem_nil v)
  · split at h
    · cases h
      show kv.1 ∈ dedupFirst ((vals.map fun v => flattenFields (recFieldsOf v)).flatMap
        (fun r => r.map Prod.fst))
      rw [mem_dedupFirst]
      exact List.mem_flatMap.mpr ⟨flattenFields (recFieldsOf v),
        List.mem_map_of_mem _ hv, List.mem_map.mpr ⟨kv, hkv, rfl⟩⟩
    · exact Except.noConfusion h

/-- A present nested field expands to one block row per frame row, and
every flattened sub-field key of every row's record appears (prefixed)
among the block's columns. -/
theorem nestedBlock_pres_spec (d : DF) (field pfx : String) (b : DF)
    (hf : field ∈ d.cols) (h : nestedBlock d field pfx = .ok b) :
    b.rows.length = d.rows.length ∧
    ∀ r ∈ d.rows, ∀ kv ∈ flattenFields (recFieldsOf (getCellAux d.cols r field)),
      (pfx ++ kv.1) ∈ b.cols := by
  rw [nestedBlock, if_pos hf] at h
  cases hjn : json_normalize (colVals d field) with
  | error e =>
    rw [hjn] at h
    exact Except.noConfusion h
  | ok b0 =>
    rw [hjn] at h
    simp only [Except.map, Except.ok.injEq] at h
    subst h
    constructor
    · show b0.rows.length = _
      rw [json_normalize_ok_rows _ _ hjn, List.length_map, colVals, List.length_map]
    · intro r hr kv hkv
      have hcell : getCellAux d.cols r field ∈ colVals d field :=
        List.mem_map_of_mem _ hr
      have hk := json_normalize_ok_cols _ _ hjn _ hcell kv hkv
      simp only [addColPre]
      exact List.mem_map.mpr ⟨kv.1, hk, rfl⟩

/-- A column absent from the raw batch and distinct from the derived
labels is absent from the derived frame. -/
theorem not_mem_derived_cols (l : List JVal) (c : String)
    (hc : c ∉ (rawDF l).cols) (h1 : c ≠ "order_timestamp") (h2 : c ≠ "order_date")
    (h3 : c ≠ "order_year") (h4 : c ≠ "order_month") :
    c ∉ (derivedDF l).cols := by
  intro hmem
  rcases (derivedDF_cols_iff _ _).mp hmem with hp | h5 | h5 | h5
  · rw [parsedDF_def] at hp
    rcases (mem_setCol_cols_iff _ _ _ _).mp hp with hp2 | hp2
    · exact hc hp2
    · exact h1 hp2
  · exact h2 h5
  · exact h3 h5
  · exact h4 h5

/-- A raw-batch column survives into the derived frame. -/
theorem mem_derived_of_raw (l : List JVal) (c : String) (hc : c ∈ (rawDF l).cols) :
    c ∈ (derivedDF l).cols :=
  (derivedDF_cols_iff _ _).mpr (Or.inl (by
    rw [parsedDF_def]
    exact (mem_setCol_cols_iff _ _ _ _).mpr (Or.inl hc)))

/-- A batch in which `customer` is present for one order and absent for
the other (both timestamps parse). -/
def wC7Batch : JList := JList.ofList [
  jobj [("order_id", .str "a1"), ("order_timestamp", .str "2025-01-01T12:00:00Z"),
    ("customer", jobj [("name", .str "Ada")])],
  jobj [("order_id", .str "a2"), ("order_timestamp", .str "2025-01-02T12:00:00Z")]]

/-- C7 counterexample: with the nested `customer` field present in the
batch (and every order surviving the timestamp filter), the invocation
does not expand it — it fails outright, because the order without a
`customer` record feeds a missing value into `pd.json_normalize`, which
raises `AttributeError`.  So "if the nested field is present, all of its
sub-fields are expanded" is false as stated. -/
theorem claim_C7_counterexample :
    "customer" ∈ (rawDF wC7Batch.toList).cols ∧
    (∀ o ∈ wC7Batch.toList, keepOrder o = true) ∧
    lambda_handler "run1" (.arr wC7Batch)
      = .error "AttributeError: object has no attribute items" :=
  ⟨by decide, by decide, by rfl⟩

/-- C7 (amended): on every invocation that returns a run result, a nested
field absent from the batch contributes no columns at all — every
FactOrder column is then an input/derived column or a column of the other
prefix — and a nested field present in the batch (which forces every
surviving order to hold a record there, else the invocation errors)
expands into one block row per order with every flattened sub-field key
present as a prefixed FactOrder column. -/
theorem claim_C7 (runId : String) (jl : JList) (out : RunOutput)
    (h : lambda_handler runId (.arr jl) = .ok (.run out)) :
    ("customer" ∉ (rawDF jl.toList).cols →
      ∀ c ∈ out.factOrders.cols,
        c ∈ (derivedDF jl.toList).cols ∨ ∃ rest, c = "payment_" ++ rest) ∧
    ("payment" ∉ (rawDF jl.toList).cols →
      ∀ c ∈ out.factOrders.cols,
        c ∈ (derivedDF jl.toList).cols ∨ ∃ rest, c = "customer_" ++ rest) ∧
    ("customer" ∈ (rawDF jl.toList).cols →
      ∃ cust, nestedBlock (derivedDF jl.toList) "customer" "customer_" = .ok cust ∧
        cust.rows.length = (derivedDF jl.toList).rows.length ∧
        (∀ c ∈ cust.cols, (∃ rest, c = "customer_" ++ rest) ∧ c ∈ out.factOrders.cols) ∧
        ∀ d ∈ (derivedDF jl.toList).rows,
          ∀ kv ∈ flattenFields (recFieldsOf
            (getCellAux (derivedDF jl.toList).cols d "customer")),
            ("customer_" ++ kv.1) ∈ cust.cols) ∧
    ("payment" ∈ (rawDF jl.toList).cols →
      ∃ pay, nestedBlock (derivedDF jl.toList) "payment" "payment_" = .ok pay ∧
        pay.rows.length = (derivedDF jl.toList).rows.length ∧
        (∀ c ∈ pay.cols, (∃ rest, c = "payment_" ++ rest) ∧ c ∈ out.factOrders.cols) ∧
        ∀ d ∈ (derivedDF jl.toList).rows,
          ∀ kv ∈ flattenFields (recFieldsOf
            (getCellAux (derivedDF jl.toList).cols d "payment")),
            ("payment_" ++ kv.1) ∈ pay.cols) := by
  obtain ⟨-, -, -, hfo, -, -, -, -⟩ := handler_run_inv runId jl out h
  obtain ⟨cust, pay, hcust, hpay, hdec, hcup, hpup⟩ := factOrders_cols_decomp _ _ hfo
  refine ⟨?_, ?_, ?_, ?_⟩
  · intro habs c hc
    have hnd : "customer" ∉ (derivedDF jl.toList).cols :=
      not_mem_derived_cols _ _ habs (by decide) (by decide) (by decide) (by decide)
    rw [nestedBlock, if_neg hnd] at hcust
    simp only [Except.ok.injEq] at hcust
    subst hcust
    rcases hdec c hc with h1 | h1 | h1
    · exact Or.inl (baseColsOf_sub _ _ h1)
    · exact absurd h1 (List.not_mem_nil c)
    · exact Or.inr (nestedBlock_cols_prefixed _ _ _ _ hpay c h1)
  · intro habs c hc
    have hnd : "payment" ∉ (derivedDF jl.toList).cols :=
      not_mem_derived_cols _ _ habs (by decide) (by decide) (by decide) (by decide)
    rw [nestedBlock, if_neg hnd] at hpay
    simp only [Except.ok.injEq] at hpay
    subst hpay
    rcases hdec c hc with h1 | h1 | h1
    · exact Or.inl (baseColsOf_sub _ _ h1)
    · exact Or.inr (nestedBlock_cols_prefixed _ _ _ _ hcust c h1)
    · exact absurd h1 (List.not_mem_nil c)
  · intro hpres
    obtain ⟨hlen, hkeys⟩ :=
      nestedBlock_pres_spec _ _ _ _ (mem_derived_of_raw _ _ hpres) hcust
    exact ⟨cust, hcust, hlen,
      fun c hc => ⟨nestedBlock_cols_prefixed _ _ _ _ hcust c hc, hcup c hc⟩, hkeys⟩
  · intro hpres
    obtain ⟨hlen, hkeys⟩ :=
      nestedBlock_pres_spec _ _ _ _ (mem_derived_of_raw _ _ hpres) hpay
    exact ⟨pay, hpay, hlen,
      fun c hc => ⟨nestedBlock_cols_prefixed _ _ _ _ hpay c hc, hpup c hc⟩, hkeys⟩

/-- Witness for C7 at the concrete batch (whose orders all carry a
`customer` record and no `payment` field). -/
theorem claim_C7_witness :
    ("customer" ∉ (rawDF wBatch.toList).cols →
      ∀ c ∈ (outOf (lambda_handler "run1" (.arr wBatch))).factOrders.cols,
        c ∈ (derivedDF wBatch.toList).cols ∨ ∃ rest, c = "payment_" ++ rest) ∧
    ("payment" ∉ (rawDF wBatch.toList).cols →
      ∀ c ∈ (outOf (lambda_handler "run1" (.arr wBatch))).factOrders.cols,
        c ∈ (derivedDF wBatch.toList).cols ∨ ∃ rest, c = "customer_" ++ rest) ∧
    ("customer" ∈ (rawDF wBatch.toList).cols →
      ∃ cust, nestedBlock (derivedDF wBatch.toList) "customer" "customer_" = .ok cust ∧
        cust.rows.length = (derivedDF wBatch.toList).rows.length ∧
        (∀ c ∈ cust.cols, (∃ rest, c = "customer_" ++ rest) ∧
          c ∈ (outOf (lambda_handler "run1" (.arr wBatch))).factOrders.cols) ∧
        ∀ d ∈ (derivedDF wBatch.toList).rows,
          ∀ kv ∈ flattenFields (recFieldsOf
            (getCellAux (derivedDF wBatch.toList).cols d "customer")),
            ("customer_" ++ kv.1) ∈ cust.cols) ∧
    ("payment" ∈ (rawDF wBatch.toList).cols →
      ∃ pay, nestedBlock (derivedDF wBatch.toList) "payment" "payment_" = .ok pay ∧
        pay.rows.length = (derivedDF wBatch.toList).rows.length ∧
        (∀ c ∈ pay.cols, (∃ rest, c = "payment_" ++ rest) ∧
          c ∈ (outOf (lambda_handler "run1" (.arr wBatch))).factOrders.cols) ∧
        ∀ d ∈ (derivedDF wBatch.toList).rows,
          ∀ kv ∈ flattenFields (recFieldsOf
            (getCellAux (derivedDF wBatch.toList).cols d "payment")),
            ("payment_" ++ kv.1) ∈ pay.cols) :=
  claim_C7 "run1" wBatch (outOf (lambda_handler "run1" (.arr wBatch))) rfl

/-- Each derived row carries integer `order_year` / `order_month` cells. -/
theorem derived_year_month (l : List JVal) (hts : "order_timestamp" ∈ (rawDF l).cols) :
    ∀ d ∈ (derivedDF l).rows, ∃ y m : ℤ,
      getCellAux (derivedDF l).cols d "order_year" = some (.int y) ∧
      getCellAux (derivedDF l).cols d "order_month" = some (.int m) := by
  intro d hd
  rw [derivedDF_rows_map] at hd
  rcases List.mem_map.mp hd with ⟨r, hr, hre⟩
  rcases survivors_ts_cell l hts r hr with ⟨ns, hns⟩
  obtain ⟨-, -, hy, hm, -⟩ := derived_cells l r (wf_survivorsDF l r hr)
  refine ⟨yearOfNs ns, monthOfNs ns, ?_, ?_⟩
  · rw [← hre, hy, hns]
  · rw [← hre, hm, hns]

/-- Sums distribute over `flatMap`. -/
theorem sum_flatMap_eq {α : Type} (l : List α) (f : α → List ℕ) :
    (l.flatMap f).sum = (l.map (fun a => (f a).sum)).sum := by
  induction l with
  | nil => rfl
  | cons a as ih => rw [List.flatMap_cons, List.sum_append, List.map_cons, List.sum_cons, ih]

/-- `map` only depends on the function's values on the list. -/
theorem map_congr_mem {α β : Type} (l : List α) (f g : α → β) (h : ∀ a ∈ l, f a = g a) :
    l.map f = l.map g := by
  induction l with
  | nil => rfl
  | cons a as ih => rw [List.map_cons, List.map_cons, h a (List.mem_cons_self _ _),
      ih (fun x hx => h x (List.mem_cons_of_mem _ hx))]

/-- The partition-loop slice predicate agrees with equality of row keys,
for an integer-shaped key. -/
theorem partKey_filter_eq2 (t : DF) (p : Cell × Cell)
    (hp1 : p.1 = some (.int (cellInt p.1))) (hp2 : p.2 = some (.int (cellInt p.2))) :
    t.rows.filter (fun r => getCellAux t.cols r "order_year" = some (.int (cellInt p.1)) ∧
      getCellAux t.cols r "order_month" = some (.int (cellInt p.2)))
    = t.rows.filter (fun r => partKeyOf t.cols r = p) := by
  apply List.filter_congr
  intro r _
  apply decide_eq_decide.mpr
  rw [partKeyOf, Prod.ext_iff]
  conv_rhs => rw [hp1, hp2]

/-- Dropping the partition columns keeps the slice's row count. -/
theorem dropCols_slice_len (t : DF) (q : List Cell → Bool) :
    (dropCols ⟨t.cols, t.rows.filter q⟩ PARTITION_COLS).rows.length
    = (t.rows.filter q).length := by
  show ((t.rows.filter q).map (fun r => dropRow t.cols r PARTITION_COLS)).length = _
  rw [List.length_map]

/-- A slice whose dropped frame has no rows was itself empty. -/
theorem dropCols_slice_rows_nil (t : DF) (q : List Cell → Bool)
    (h : (dropCols ⟨t.cols, t.rows.filter q⟩ PARTITION_COLS).rows = []) :
    t.rows.filter q = [] := by
  have h2 : ((t.rows.filter q).map (fun r => dropRow t.cols r PARTITION_COLS)) = [] := h
  exact List.map_eq_nil_iff.mp h2

/-- A frame holding `order_id` keeps a column after the partition drop. -/
theorem dropCols_slice_cols_ne (t : DF) (q : List Cell → Bool)
    (hid2 : "order_id" ∈ t.cols)
    (h : (dropCols ⟨t.cols, t.rows.filter q⟩ PARTITION_COLS).cols.isEmpty = true) : False := by
  have hmem : "order_id" ∈ (dropCols ⟨t.cols, t.rows.filter q⟩ PARTITION_COLS).cols :=
    List.mem_filter.mpr ⟨hid2, by decide⟩
  rw [List.isEmpty_iff.mp h] at hmem
  exact List.not_mem_nil _ hmem

/-- The orders-rows contribution of an optional orders write. -/
theorem map_sum_if_orders (cond : Prop) [Decidable cond] (k : String) (dfx : DF) :
    (((if cond then ([] : List WriteOp) else [⟨Dataset.factOrders, k, dfx⟩]).map
      (fun w => if w.dataset = Dataset.factOrders then w.df.rows.length else 0)).sum)
    = if cond then 0 else dfx.rows.length := by
  split
  · rfl
  · rfl

/-- An items write contributes nothing to the orders-rows sum. -/
theorem map_sum_if_orders_zero (cond : Prop) [Decidable cond] (k : String) (dfx : DF) :
    (((if cond then ([] : List WriteOp) else [⟨Dataset.factOrderItems, k, dfx⟩]).map
      (fun w => if w.dataset = Dataset.factOrders then w.df.rows.length else 0)).sum) = 0 := by
  split
  · rfl
  · rfl

/-- The items-rows contribution of an optional items write. -/
theorem map_sum_if_items (cond : Prop) [Decidable cond] (k : String) (dfx : DF) :
    (((if cond then ([] : List WriteOp) else [⟨Dataset.factOrderItems, k, dfx⟩]).map
      (fun w => if w.dataset = Dataset.factOrderItems then w.df.rows.length else 0)).sum)
    = if cond then 0 else dfx.rows.length := by
  split
  · rfl
  · rfl

/-- An orders write contributes nothing to the items-rows sum. -/
theorem map_sum_if_items_zero (cond : Prop) [Decidable cond] (k : String) (dfx : DF) :
    (((if cond then ([] : List WriteOp) else [⟨Dataset.factOrders, k, dfx⟩]).map
      (fun w => if w.dataset = Dataset.factOrderItems then w.df.rows.length else 0)).sum) = 0 := by
  split
  · rfl
  · rfl

/-- One loop iteration writes exactly the orders-slice row count for the
orders dataset (the slice is non-empty by choice of the partition set). -/
theorem writesFor_orders_len (runId : String) (fo fi : DF) (p : Cell × Cell)
    (hp1 : p.1 = some (.int (cellInt p.1))) (hp2 : p.2 = some (.int (cellInt p.2)))
    (hid2 : "order_id" ∈ fo.cols)
    (hnem : ∃ r ∈ fo.rows, partKeyOf fo.cols r = p) :
    (((writesFor runId fo fi p).map
      (fun w => if w.dataset = Dataset.factOrders then w.df.rows.length else 0)).sum)
    = (fo.rows.filter (fun r => partKeyOf fo.cols r = p)).length := by
  simp only [writesFor, List.map_append, List.sum_append]
  rw [map_sum_if_orders, map_sum_if_orders_zero, Nat.add_zero]
  split
  · next hA =>
    exfalso
    obtain ⟨r, hr, hrk⟩ := hnem
    rcases hA with hA | hA
    · have hnil := dropCols_slice_rows_nil fo _ (List.isEmpty_iff.mp hA)
      rw [partKey_filter_eq2 fo p hp1 hp2] at hnil
      have hmem2 : r ∈ fo.rows.filter (fun r => partKeyOf fo.cols r = p) :=
        List.mem_filter.mpr ⟨hr, decide_eq_true hrk⟩
      rw [hnil] at hmem2
      exact List.not_mem_nil r hmem2
    · exact dropCols_slice_cols_ne fo _ hid2 hA
  · rw [dropCols_slice_len, partKey_filter_eq2 fo p hp1 hp2]

/-- One loop iteration writes exactly the items-slice row count for the
items dataset (zero when the items table is degenerate or the slice is
empty, matching the skipped write). -/
theorem writesFor_items_len (runId : String) (fo fi : DF) (p : Cell × Cell)
    (hp1 : p.1 = some (.int (cellInt p.1))) (hp2 : p.2 = some (.int (cellInt p.2)))
    (hiid : ¬(fi.rows.isEmpty = true ∨ fi.cols.isEmpty = true) → "order_id" ∈ fi.cols) :
    (((writesFor runId fo fi p).map
      (fun w => if w.dataset = Dataset.factOrderItems then w.df.rows.length else 0)).sum)
    = if fi.rows.isEmpty = true ∨ fi.cols.isEmpty = true then 0
      else (fi.rows.filter (fun r => partKeyOf fi.cols r = p)).length := by
  simp only [writesFor, List.map_append, List.sum_append]
  rw [map_sum_if_items_zero, map_sum_if_items, Nat.zero_add]
  by_cases hD : fi.rows.isEmpty = true ∨ fi.cols.isEmpty = true
  · rw [if_pos hD, if_pos hD,
      if_pos (Or.inl (show (dropCols emptyDF PARTITION_COLS).rows.isEmpty = true from rfl))]
  · rw [if_neg hD, if_neg hD]
    split
    · next hE =>
      rcases hE with hE | hE
      · have hnil := dropCols_slice_rows_nil fi _ (List.isEmpty_iff.mp hE)
        rw [partKey_filter_eq2 fi p hp1 hp2] at hnil
        rw [hnil]
        rfl
      · exact absurd hE (fun hE2 => dropCols_slice_cols_ne fi _ (hiid hD) hE2)
    · rw [dropCols_slice_len, partKey_filter_eq2 fi p hp1 hp2]

/-- C8: the returned row counts equal, per dataset, the total number of
rows written across all partition files of that dataset (0 for a dataset
that wrote nothing). -/
theorem claim_C8 (runId : String) (jl : JList) (out : RunOutput)
    (h : lambda_handler runId (.arr jl) = .ok (.run out)) :
    out.rowsFactOrders
      = ((out.writes.map
          (fun w => if w.dataset = Dataset.factOrders then w.df.rows.length else 0)).sum) ∧
    out.rowsFactOrderItems
      = ((out.writes.map
          (fun w => if w.dataset = Dataset.factOrderItems then w.df.rows.length else 0)).sum) := by
  obtain ⟨hne, hid, hts, hfo, hfi, hwr, hcntO, hcntI⟩ := handler_run_inv runId jl out h
  obtain ⟨F, tail, hfc, hfrows, hfp⟩ := factOrders_spec _ _ hfo
  have hyb : "order_year" ∈ baseColsOf (derivedDF jl.toList) :=
    List.mem_filter.mpr ⟨(derivedDF_cols_iff _ _).mpr (Or.inr (Or.inr (Or.inl rfl))),
      by decide⟩
  have hmb : "order_month" ∈ baseColsOf (derivedDF jl.toList) :=
    List.mem_filter.mpr ⟨(derivedDF_cols_iff _ _).mpr (Or.inr (Or.inr (Or.inr rfl))),
      by decide⟩
  have hidb : "order_id" ∈ baseColsOf (derivedDF jl.toList) :=
    List.mem_filter.mpr ⟨mem_derived_of_raw _ _ hid, by decide⟩
  have hfoid : "order_id" ∈ out.factOrders.cols := by
    rw [hfc]
    exact List.mem_append_left _ hidb
  have hkey : ∀ d ∈ (derivedDF jl.toList).rows,
      partKeyOf out.factOrders.cols (F d)
        = (getCellAux (derivedDF jl.toList).cols d "order_year",
           getCellAux (derivedDF jl.toList).cols d "order_month") := by
    intro d hd
    rw [partKeyOf, (hfp d).2 "order_year" hyb (by decide),
      (hfp d).2 "order_month" hmb (by decide)]
  have hfoshape : ∀ r ∈ out.factOrders.rows, ∃ y m : ℤ,
      partKeyOf out.factOrders.cols r = (some (.int y), some (.int m)) := by
    intro r hr
    rw [hfrows] at hr
    rcases List.mem_map.mp hr with ⟨d, hd, hre⟩
    obtain ⟨y, m, hy, hm⟩ := derived_year_month _ hts d hd
    exact ⟨y, m, by rw [← hre, hkey d hd, hy, hm]⟩
  set parts := dedupFirst (out.factOrders.rows.map
    (fun r => partKeyOf out.factOrders.cols r)) with hparts
  have hshape_parts : ∀ p ∈ parts, p.1 = some (.int (cellInt p.1)) ∧
      p.2 = some (.int (cellInt p.2)) := by
    intro p hp
    rw [hparts, mem_dedupFirst] at hp
    rcases List.mem_map.mp hp with ⟨r, hr, hre⟩
    obtain ⟨y, m, hk⟩ := hfoshape r hr
    rw [← hre, hk]
    exact ⟨rfl, rfl⟩
  have hnemp : ∀ p ∈ parts, ∃ r ∈ out.factOrders.rows,
      partKeyOf out.factOrders.cols r = p := by
    intro p hp
    rw [hparts, mem_dedupFirst] at hp
    rcases List.mem_map.mp hp with ⟨r, hr, hre⟩
    exact ⟨r, hr, hre⟩
  constructor
  · rw [hcntO, hwr, List.map_flatMap, sum_flatMap_eq]
    have hcong := map_congr_mem parts
      (fun p => (((writesFor runId out.factOrders out.factOrderItems p).map
        (fun w => if w.dataset = Dataset.factOrders then w.df.rows.length else 0)).sum))
      (fun p => (out.factOrders.rows.filter
        (fun r => partKeyOf out.factOrders.cols r = p)).length)
      (fun p hp => by
        obtain ⟨hp1, hp2⟩ := hshape_parts p hp
        exact writesFor_orders_len runId _ _ p hp1 hp2 hfoid (hnemp p hp))
    rw [hcong, sum_filter_lengths parts (by rw [hparts]; exact nodup_dedupFirst _)
      (fun r => partKeyOf out.factOrders.cols r) out.factOrders.rows
      (fun r hr => by rw [hparts, mem_dedupFirst]; exact List.mem_map_of_mem _ hr)]
  · by_cases hD : out.factOrderItems.rows.isEmpty = true ∨
        out.factOrderItems.cols.isEmpty = true
    · rw [hcntI, if_pos hD, hwr, List.map_flatMap, sum_flatMap_eq]
      symm
      apply List.sum_eq_zero
      intro n hn
      rcases List.mem_map.mp hn with ⟨p, hp, hpe⟩
      obtain ⟨hp1, hp2⟩ := hshape_parts p hp
      rw [← hpe]
      show (((writesFor runId out.factOrders out.factOrderItems p).map
        (fun w => if w.dataset = Dataset.factOrderItems then w.df.rows.length else 0)).sum)
        = 0
      rw [writesFor_items_len runId out.factOrders out.factOrderItems p hp1 hp2
        (fun hnd => absurd hD hnd), if_pos hD]
    · have hin : "items" ∈ (derivedDF jl.toList).cols := by
        by_contra hin
        rw [factItemsDF, if_neg hin] at hfi
        simp only [pure, Except.pure, Except.ok.injEq] at hfi
        rw [← hfi] at hD
        exact hD (Or.inl rfl)
      obtain ⟨G, icols, hgc, hgrows, hgp⟩ := factItems_spec _ _ hfi hin
      have hfiid : "order_id" ∈ out.factOrderItems.cols := by
        rw [hgc]
        exact List.mem_append_left _ (by decide)
      have hmemI : ∀ ri ∈ out.factOrderItems.rows,
          partKeyOf out.factOrderItems.cols ri ∈ parts := by
        intro ri hri
        rw [hgrows] at hri
        rcases List.mem_flatMap.mp hri with ⟨d, hd, hrm⟩
        rcases List.mem_map.mp hrm with ⟨v, -, hre⟩
        have hkeq : partKeyOf out.factOrderItems.cols ri
            = partKeyOf out.factOrders.cols (F d) := by
          rw [← hre, partKeyOf, (hgp d v).2 "order_year" (by decide),
            (hgp d v).2 "order_month" (by decide), hkey d hd]
        rw [hkeq, hparts, mem_dedupFirst]
        exact List.mem_map_of_mem _ (by rw [hfrows]; exact List.mem_map_of_mem _ hd)
      rw [hcntI, if_neg hD, hwr, List.map_flatMap, sum_flatMap_eq]
      have hcong := map_congr_mem parts
        (fun p => (((writesFor runId out.factOrders out.factOrderItems p).map
          (fun w => if w.dataset = Dataset.factOrderItems then w.df.rows.length else 0)).sum))
        (fun p => (out.factOrderItems.rows.filter
          (fun r => partKeyOf out.factOrderItems.cols r = p)).length)
        (fun p hp => by
          obtain ⟨hp1, hp2⟩ := hshape_parts p hp
          show (((writesFor runId out.factOrders out.factOrderItems p).map
            (fun w => if w.dataset = Dataset.factOrderItems then w.df.rows.length
              else 0)).sum)
            = (out.factOrderItems.rows.filter
              (fun r => partKeyOf out.factOrderItems.cols r = p)).length
          rw [writesFor_items_len runId out.factOrders out.factOrderItems p hp1 hp2
            (fun hnd2 => hfiid), if_neg hD])
      rw [hcong, sum_filter_lengths parts (by rw [hparts]; exact nodup_dedupFirst _)
        (fun r => partKeyOf out.factOrderItems.cols r) out.factOrderItems.rows hmemI]

/-- Witness for C8 at the concrete batch: 2 FactOrder rows and 3
FactOrderItem rows, matching the written files. -/
theorem claim_C8_witness :
    (outOf (lambda_handler "run1" (.arr wBatch))).rowsFactOrders
      = (((outOf (lambda_handler "run1" (.arr wBatch))).writes.map
          (fun w => if w.dataset = Dataset.factOrders then w.df.rows.length else 0)).sum) ∧
    (outOf (lambda_handler "run1" (.arr wBatch))).rowsFactOrderItems
      = (((outOf (lambda_handler "run1" (.arr wBatch))).writes.map
          (fun w => if w.dataset = Dataset.factOrderItems then w.df.rows.length else 0)).sum) :=
  claim_C8 "run1" wBatch (outOf (lambda_handler "run1" (.arr wBatch))) rfl

end RetailETL
